import Mathlib

/-
Verification of the DailyBugle service (src/index.js) against its
natural-language specification.

The embedding is shallow: each JavaScript function that the claims touch is
translated into an executable Lean definition.  Effects are made explicit:
filesystem writes become an event list, the external fetch becomes an oracle
parameter, timers become an explicit armed-timer list, and the interleaving
of asynchronous batch runs becomes a small-step transition system.
-/

namespace DailyBugle

/-! ### Path model

Model of the Node `path.join` / `path.resolve` functions, restricted to the
use in the request handler, where the first argument is an absolute path.
A path is normalised by splitting on the separator, then folding: a `..`
segment removes the previous segment (at the root it is dropped, matching
`path.resolve` on absolute paths), a `.` segment is skipped.
-/

/-- Split a character list at every occurrence of the separator character,
like the JavaScript `String.prototype.split` with a one-character separator. -/
def splitOnChar (sep : Char) : List Char → List (List Char)
  | [] => [[]]
  | c :: cs =>
    match splitOnChar sep cs with
    | [] => [[c]]
    | y :: ys => if c = sep then [] :: y :: ys else (c :: y) :: ys

/-- `pre.data.isPrefixOf s.data`, the semantics of the JavaScript
`s.startsWith(pre)`. -/
def jsStartsWith (s pre : String) : Bool :=
  pre.data.isPrefixOf s.data

def splitSegs (s : String) : List String :=
  ((splitOnChar '/' s.data).map String.mk).filter (fun seg => seg ≠ "")

def normStep (acc : List String) (seg : String) : List String :=
  if seg = "." then acc
  else if seg = ".." then acc.dropLast
  else acc ++ [seg]

def normSegs (segs : List String) : List String :=
  segs.foldl normStep []

def joinSegs : List String → String
  | [] => ""
  | [s] => s
  | s :: rest => s ++ "/" ++ joinSegs rest

def renderAbs (segs : List String) : String :=
  "/" ++ joinSegs segs

/-- Model of `path.resolve` on an absolute path. -/
def pathResolve (p : String) : String :=
  renderAbs (normSegs (splitSegs p))

/-- Model of `path.join` where the first argument is absolute. -/
def pathJoin (a b : String) : String :=
  renderAbs (normSegs (splitSegs a ++ splitSegs b))

/-- Model of the three-argument `path.join` where the first argument is absolute. -/
def pathJoin3 (a b c : String) : String :=
  renderAbs (normSegs (splitSegs a ++ splitSegs b ++ splitSegs c))

/-- A resolved path lies inside a root directory: the segment list of the
root is a prefix of the segment list of the path.  This is the spec notion
of a path being within the public root. -/
def withinRoot (root p : String) : Bool :=
  List.isPrefixOf (normSegs (splitSegs root)) (normSegs (splitSegs p))

/-! ### Request handler (createRequestHandler, src/index.js lines 38-62) -/

/-- What the handler does with a request: reject with 403 Forbidden, or go on
to read the resolved file from the filesystem (serveStaticFile). -/
inductive HandlerAction where
  | forbidden
  | readFile (resolvedPath : String)
deriving DecidableEq

/-- Model of the request handler returned by `createRequestHandler(baseDir)`,
applied to the pathname of a parsed request URL. -/
def createRequestHandler (baseDir : String) (pathname0 : String) : HandlerAction :=
  let pathname := if pathname0 = "/" then "/index.html" else pathname0
  let publicDir := pathJoin baseDir "../public"
  let requestedPath := pathJoin publicDir pathname
  let resolvedPath := pathResolve requestedPath
  if jsStartsWith resolvedPath (pathResolve publicDir) then
    HandlerAction.readFile resolvedPath
  else
    HandlerAction.forbidden

/-! ### Dates and the storage key

`new Date()` instants are modelled by their UTC calendar fields, and
`Date.prototype.toISOString` by the usual zero-padded rendering
`YYYY-MM-DDTHH:MM:SS.mmmZ`.  The `% 10` in the padding helpers makes them
total; on in-range field values they agree with the runtime. -/

structure JsDate where
  year : Nat
  month : Nat
  day : Nat
  hour : Nat
  minute : Nat
  second : Nat
  millis : Nat
deriving DecidableEq

def pad2 (n : Nat) : List Char :=
  [Nat.digitChar (n / 10 % 10), Nat.digitChar (n % 10)]

def pad3 (n : Nat) : List Char :=
  [Nat.digitChar (n / 100 % 10), Nat.digitChar (n / 10 % 10), Nat.digitChar (n % 10)]

def pad4 (n : Nat) : List Char :=
  [Nat.digitChar (n / 1000 % 10), Nat.digitChar (n / 100 % 10),
   Nat.digitChar (n / 10 % 10), Nat.digitChar (n % 10)]

def isoDateChars (d : JsDate) : List Char :=
  pad4 d.year ++ '-' :: pad2 d.month ++ '-' :: pad2 d.day

def isoTimeChars (d : JsDate) : List Char :=
  pad2 d.hour ++ ':' :: pad2 d.minute ++ ':' :: pad2 d.second ++ '.' :: pad3 d.millis ++ ['Z']

def toISOChars (d : JsDate) : List Char :=
  isoDateChars d ++ 'T' :: isoTimeChars d

def toISOString (d : JsDate) : String :=
  String.mk (toISOChars d)

/-- The JavaScript `replace(/[:.]/g, '-')`: every colon and dot becomes a dash. -/
def dashColonsDots (cs : List Char) : List Char :=
  cs.map (fun c => if c = ':' ∨ c = '.' then '-' else c)

/-- The JavaScript `replace(':', '-')` with a plain string pattern: only the
first occurrence is replaced. -/
def dashFirstColon : List Char → List Char
  | [] => []
  | c :: cs => if c = ':' then '-' :: cs else c :: dashFirstColon cs

/-- The storage key computed by `generateAllSections` (src/index.js lines
167-171): `isoString.replace(/[:.]/g, '-').split('T')[0]` followed by
`'_'` and `isoString.split('T')[1].substring(0, 5).replace(':', '-')`. -/
def mkDateFolder (d : JsDate) : String :=
  let isoString := toISOChars d
  let timestamp := (splitOnChar 'T' (dashColonsDots isoString)).getD 0 []
  let timeHour := dashFirstColon (((splitOnChar 'T' isoString).getD 1 []).take 5)
  String.mk (timestamp ++ '_' :: timeHour)

/-- Modelled from the spec: the storage key format `YYYY-MM-DD_HH-MM`
promised in section 4.3, built directly from the calendar fields. -/
def specDateFolder (d : JsDate) : String :=
  String.mk (pad4 d.year ++ '-' :: pad2 d.month ++ '-' :: pad2 d.day ++
             '_' :: pad2 d.hour ++ '-' :: pad2 d.minute)

/-! ### Configuration and the generation client -/

structure Section where
  id : String
  name : String
  reporter : String
  systemPrompt : String
  sectionPrompt : String
deriving DecidableEq

structure OllamaConfig where
  baseUrl : String
  model : String
  temperature : Rat
deriving DecidableEq

structure ConfigData where
  systemPrompt : Option String
  ollamaConfig : OllamaConfig
  sections : List Section
deriving DecidableEq

/-- The failures the generation client can surface: the endpoint answered
with a non-success status (the thrown `Ollama API error` message carries the
status and status text), the fetch itself failed at transport level, or the
fetch was rejected because the abort signal fired. -/
inductive GenError where
  | upstream (status : Nat) (statusText : String)
  | transport
  | aborted
deriving DecidableEq

/-- The body of the POST request `callOllama` sends to
`{baseUrl}/api/generate`. -/
structure OllamaRequest where
  url : String
  model : String
  prompt : String
  system : String
  stream : Bool
  temperature : Rat
deriving DecidableEq

def mkOllamaRequest (systemPrompt userPrompt : String) (ollamaConfig : OllamaConfig) :
    OllamaRequest :=
  { url := ollamaConfig.baseUrl ++ "/api/generate"
    model := ollamaConfig.model
    prompt := userPrompt
    system := systemPrompt
    stream := false
    temperature := ollamaConfig.temperature }

/-- What the environment answers to one fetch: a response with its `ok` flag,
status data and parsed `data.response` body, a network-level failure, or an
abort rejection. -/
inductive FetchOutcome where
  | response (ok : Bool) (status : Nat) (statusText : String) (body : String)
  | netError
  | abortError
deriving DecidableEq

/-- Model of `callOllama` (src/index.js lines 107-133).  The ambient fetch is
an oracle from the request to its outcome.  A rejected fetch propagates; a
response with `ok = false` throws the upstream error; otherwise the parsed
`data.response` is returned. -/
def callOllama (systemPrompt userPrompt : String) (ollamaConfig : OllamaConfig)
    (fetch : OllamaRequest → FetchOutcome) : Except GenError String :=
  match fetch (mkOllamaRequest systemPrompt userPrompt ollamaConfig) with
  | FetchOutcome.netError => Except.error GenError.transport
  | FetchOutcome.abortError => Except.error GenError.aborted
  | FetchOutcome.response ok status statusText body =>
    if ok then Except.ok body else Except.error (GenError.upstream status statusText)

/-! ### Section generator -/

structure GenerationResult where
  id : String
  name : String
  reporter : String
  content : String
  timestamp : String
deriving DecidableEq

/-- JavaScript truthiness of `configData.systemPrompt`: absent and the empty
string are falsy. -/
def jsTruthy : Option String → Bool
  | none => false
  | some s => s ≠ ""

/-- The effective system prompt computed by `generateSection` (src/index.js
lines 141-143): `configData.systemPrompt ? configData.systemPrompt + " " +
section.systemPrompt : section.systemPrompt`. -/
def fullSystemPrompt (configPrompt : Option String) (sectionSystemPrompt : String) : String :=
  if jsTruthy configPrompt then
    configPrompt.getD "" ++ " " ++ sectionSystemPrompt
  else
    sectionSystemPrompt

/-- Model of `generateSection` (src/index.js lines 138-152).  `nowISO` is the
`new Date().toISOString()` taken when the result is packaged. -/
def generateSection («section» : Section) (configData : ConfigData)
    (fetch : OllamaRequest → FetchOutcome) (nowISO : String) :
    Except GenError GenerationResult :=
  match callOllama (fullSystemPrompt configData.systemPrompt «section».systemPrompt)
      «section».sectionPrompt configData.ollamaConfig fetch with
  | Except.error e => Except.error e
  | Except.ok content =>
    Except.ok
      { id := «section».id
        name := «section».name
        reporter := «section».reporter
        content := content
        timestamp := nowISO }

/-! ### Batch generator

`generateAllSections` (src/index.js lines 157-224) fans out one
`generateSection` call per configured section through `Promise.all`, and only
after the whole set has resolved does it write anything: one directory
creation and one HTML article file per section, in section order, then a
single rewrite of `news.json`.  The filesystem effects are recorded as an
event list; if `Promise.all` rejects (any section failed or was aborted), the
function rethrows and the event list is empty. -/

structure NewsItem where
  id : String
  name : String
  reporter : String
  url : String
  timestamp : String
deriving DecidableEq

inductive WriteEvent where
  | mkdirRec (dir : String)
  | articleFile (filepath : String) (content : String)
  | indexFile (filepath : String) (items : List NewsItem) (generated : String)
deriving DecidableEq

/-- `await Promise.all(...)`: all results, or the failure of any one. -/
def collectResults : List (Except GenError GenerationResult) →
    Except GenError (List GenerationResult)
  | [] => Except.ok []
  | Except.error e :: _ => Except.error e
  | Except.ok r :: rest =>
    match collectResults rest with
    | Except.error e => Except.error e
    | Except.ok rs => Except.ok (r :: rs)

/-- The inline HTML article template (src/index.js lines 184-199).
`toLocale` models `new Date(result.timestamp).toLocaleString()`. -/
def articleHtml (r : GenerationResult) (toLocale : String → String) : String :=
  "<!DOCTYPE html>\n<html lang=\"en\">\n<head>\n    <meta charset=\"UTF-8\">\n" ++
  "    <meta name=\"viewport\" content=\"width=device-width, initial-scale=1.0\">\n" ++
  "    <title>" ++ r.name ++ " - Daily Bugle</title>\n</head>\n<body>\n    <article>\n" ++
  "        <h2>" ++ r.name ++ "</h2>\n" ++
  "        <p class=\"byline\">By " ++ r.reporter ++ "</p>\n" ++
  "        <div class=\"content\">" ++ r.content ++ "</div>\n" ++
  "        <p class=\"timestamp\">" ++ toLocale r.timestamp ++ "</p>\n" ++
  "    </article>\n</body>\n</html>"

/-- The per-result body of the save loop: the `mkdir` and `writeFile` events
and the `newsItems` entry pushed for one result. -/
def saveSection (baseDir : String) (filename : String) (toLocale : String → String)
    (r : GenerationResult) : List WriteEvent × NewsItem :=
  let sectionDir := pathJoin3 baseDir "../public/sections" r.id
  let filepath := pathJoin sectionDir filename
  ([WriteEvent.mkdirRec sectionDir, WriteEvent.articleFile filepath (articleHtml r toLocale)],
   { id := r.id
     name := r.name
     reporter := r.reporter
     url := "./sections/" ++ r.id ++ "/" ++ filename
     timestamp := r.timestamp })

/-- Model of `generateAllSections`.  `completionDate` is the `new Date()`
taken after the fan-in (line 167), `indexGeneratedISO` the ISO string taken
at the index write (line 218). -/
def generateAllSections (configData : ConfigData) (baseDir : String)
    (fetch : OllamaRequest → FetchOutcome) (nowISO : String) (completionDate : JsDate)
    (indexGeneratedISO : String) (toLocale : String → String) :
    List WriteEvent × Except GenError Unit :=
  match collectResults
      (configData.sections.map (fun s => generateSection s configData fetch nowISO)) with
  | Except.error e => ([], Except.error e)
  | Except.ok results =>
    let dateFolder := mkDateFolder completionDate
    let filename := dateFolder ++ ".html"
    let saved := results.map (saveSection baseDir filename toLocale)
    let newsItems := saved.map Prod.snd
    let newsJsonPath := pathJoin baseDir "../public/news.json"
    ((saved.map Prod.fst).flatten ++
       [WriteEvent.indexFile newsJsonPath newsItems indexGeneratedISO],
     Except.ok ())

def WriteEvent.isArticle : WriteEvent → Bool
  | WriteEvent.articleFile _ _ => true
  | _ => false

def WriteEvent.isIndex : WriteEvent → Bool
  | WriteEvent.indexFile _ _ _ => true
  | _ => false

/-- The item lists of the index writes in an event list. -/
def indexItemLists (ws : List WriteEvent) : List (List NewsItem) :=
  ws.filterMap (fun w =>
    match w with
    | WriteEvent.indexFile _ items _ => some items
    | _ => none)

/-! ### Next-trigger computation (getNext1AM, src/index.js lines 229-240)

A local-time instant is a day index plus the milliseconds elapsed since that
day's midnight; `setHours(1, 0, 0, 0)` keeps the day and sets the time of day
to exactly one hour. -/

def msPerDay : Nat := 24 * 60 * 60 * 1000

def oneAMms : Nat := 60 * 60 * 1000

structure SimpleTime where
  day : Nat
  msOfDay : Nat
deriving DecidableEq

/-- Absolute milliseconds of an instant, the ordering `Date` comparison uses. -/
def SimpleTime.abs (t : SimpleTime) : Nat :=
  t.day * msPerDay + t.msOfDay

/-- Model of `getNext1AM`: copy `now`, set the time of day to 01:00:00.000,
and if that instant is not after `now`, move it one day forward. -/
def getNext1AM (now : SimpleTime) : SimpleTime :=
  let next1AM : SimpleTime := { day := now.day, msOfDay := oneAMms }
  if next1AM.abs ≤ now.abs then { next1AM with day := next1AM.day + 1 }
  else next1AM

/-! ### Scheduler timer discipline (startTimer, src/index.js lines 261-348)

The timer state of the closure: the two timeout-id variables plus the list of
timers currently armed in the runtime.  `setTimeout` arms a timer under a
fresh id, `clearTimeout` disarms the timer with a given id.  The outcome
branches of `attemptGeneration` and the timer callbacks each run as one
synchronous block, so each is one atomic transition. -/

inductive TimerKind where
  | retry
  | daily
deriving DecidableEq

structure ArmedTimer where
  id : Nat
  kind : TimerKind
  delay : Nat
deriving DecidableEq

structure SchedulerState where
  armed : List ArmedTimer
  retryTimeoutId : Option Nat
  nextScheduleTimeoutId : Option Nat
  nextTimerId : Nat
deriving DecidableEq

def RETRY_INTERVAL_MS : Nat := 10 * 60 * 1000

def clearTimeout (s : SchedulerState) (i : Nat) : SchedulerState :=
  { s with armed := s.armed.filter (fun t => t.id ≠ i) }

def setTimeout (s : SchedulerState) (k : TimerKind) (d : Nat) : SchedulerState × Nat :=
  ({ s with armed := s.armed ++ [{ id := s.nextTimerId, kind := k, delay := d }]
            nextTimerId := s.nextTimerId + 1 },
   s.nextTimerId)

/-- Model of `scheduleNextDay`: clear any existing next-day timeout, then arm
one at `getNext1AM(now) - now` milliseconds and remember its id. -/
def scheduleNextDay (s : SchedulerState) (now : SimpleTime) : SchedulerState :=
  let s1 :=
    match s.nextScheduleTimeoutId with
    | some i => clearTimeout s i
    | none => s
  let armRes := setTimeout s1 TimerKind.daily ((getNext1AM now).abs - now.abs)
  { armRes.1 with nextScheduleTimeoutId := some armRes.2 }

/-- How one `attemptGeneration` call settled: the batch succeeded, the batch
threw with the abort signal not set, or the batch threw with the abort signal
set (`signal.aborted`). -/
inductive BatchOutcome where
  | success
  | failure
  | cancelled
deriving DecidableEq

/-- Model of the outcome branches of `attemptGeneration` (src/index.js lines
282-318): on success clear any retry timeout and schedule the next day; on a
non-aborted failure clear any retry timeout and arm a fresh one at
`RETRY_INTERVAL_MS`; on a cancelled run return without touching any timer. -/
def handleOutcome (s : SchedulerState) (o : BatchOutcome) (now : SimpleTime) :
    SchedulerState :=
  match o with
  | BatchOutcome.cancelled => s
  | BatchOutcome.success =>
    let s1 :=
      match s.retryTimeoutId with
      | some i => { clearTimeout s i with retryTimeoutId := none }
      | none => s
    scheduleNextDay s1 now
  | BatchOutcome.failure =>
    let s1 :=
      match s.retryTimeoutId with
      | some i => clearTimeout s i
      | none => s
    let armRes := setTimeout s1 TimerKind.retry RETRY_INTERVAL_MS
    { armRes.1 with retryTimeoutId := some armRes.2 }

/-- The scheduler-visible events: a batch outcome is handled, the retry
timeout fires (its callback nulls `retryTimeoutId` before starting a new
attempt), or the next-day timeout fires likewise. -/
inductive SchedEvent where
  | outcome (o : BatchOutcome) (now : SimpleTime)
  | retryFires
  | dailyFires
deriving DecidableEq

def schedStep (s : SchedulerState) : SchedEvent → SchedulerState
  | SchedEvent.outcome o now => handleOutcome s o now
  | SchedEvent.retryFires =>
    match s.retryTimeoutId with
    | some i => { clearTimeout s i with retryTimeoutId := none }
    | none => s
  | SchedEvent.dailyFires =>
    match s.nextScheduleTimeoutId with
    | some i => { clearTimeout s i with nextScheduleTimeoutId := none }
    | none => s

/-- `startTimer` initialisation: no timers, then `scheduleNextDay()`. -/
def startTimerInit (now0 : SimpleTime) : SchedulerState :=
  scheduleNextDay { armed := [], retryTimeoutId := none,
                    nextScheduleTimeoutId := none, nextTimerId := 0 } now0

def schedExec (now0 : SimpleTime) (evs : List SchedEvent) : SchedulerState :=
  evs.foldl schedStep (startTimerInit now0)

def retryTimers (s : SchedulerState) : List ArmedTimer :=
  s.armed.filter (fun t => t.kind = TimerKind.retry)

def dailyTimers (s : SchedulerState) : List ArmedTimer :=
  s.armed.filter (fun t => t.kind = TimerKind.daily)

/-! ### Batch-run interleaving (attemptGeneration and generateAllSections)

The cancellation behaviour of overlapping runs is modelled as a small-step
system.  A run is one `generateAllSections` call: it is created by a trigger
(which first aborts the controller currently held in
`currentGenerationAbortController`, then synchronously issues the fan-out
fetches of the new run), sits in its `fetching` phase until `Promise.all`
settles, then — with no further look at the abort signal, exactly as in the
source — performs its article writes one await at a time and finally the
index write.  An abort while a fetch is pending rejects `Promise.all`; the
catch block sees `signal.aborted` and returns.  A non-aborted rejection takes
the failure branch.  The success branch nulls the controller variable
unconditionally, as the source does. -/

inductive RunPhase where
  | fetching
  | writing (k : Nat)
  | doneOk
  | cancelledDone
  | failedDone
deriving DecidableEq

structure RunState where
  rid : Nat
  aborted : Bool
  phase : RunPhase
  superseded : Option Nat
deriving DecidableEq

inductive RunEvent where
  | abortSignal (rid : Nat)
  | netCalls (rid : Nat)
  | articleWritten (rid : Nat) (k : Nat)
  | indexWritten (rid : Nat)
deriving DecidableEq

structure BatchSys where
  runs : List RunState
  controller : Option Nat
  log : List RunEvent
  nextRid : Nat
deriving DecidableEq

def updateRun (rid : Nat) (f : RunState → RunState) (runs : List RunState) :
    List RunState :=
  runs.map (fun r => if r.rid = rid then f r else r)

def findRun (rid : Nat) (runs : List RunState) : Option RunState :=
  runs.find? (fun r => r.rid = rid)

/-- A trigger firing: `attemptGeneration` aborts the controller currently in
`currentGenerationAbortController` (if any), installs a fresh controller, and
calls `generateAllSections`, which issues all its fetches in the same
synchronous block. -/
def triggerStep (σ : BatchSys) : BatchSys :=
  match σ.controller with
  | some a =>
    { runs := updateRun a (fun r => { r with aborted := true }) σ.runs ++
        [{ rid := σ.nextRid, aborted := false, phase := RunPhase.fetching,
           superseded := some a }]
      controller := some σ.nextRid
      log := σ.log ++ [RunEvent.abortSignal a, RunEvent.netCalls σ.nextRid]
      nextRid := σ.nextRid + 1 }
  | none =>
    { runs := σ.runs ++
        [{ rid := σ.nextRid, aborted := false, phase := RunPhase.fetching,
           superseded := none }]
      controller := some σ.nextRid
      log := σ.log ++ [RunEvent.netCalls σ.nextRid]
      nextRid := σ.nextRid + 1 }

/-- A run makes progress along its success path.  `nsec` is the number of
configured sections.  In `fetching` with the signal aborted, `Promise.all`
has rejected and the catch block returns; otherwise the fan-in completes and
the write loop starts.  The write loop never consults the signal. -/
def runStepOk (nsec : Nat) (σ : BatchSys) (rid : Nat) : BatchSys :=
  match findRun rid σ.runs with
  | none => σ
  | some r =>
    match r.phase with
    | RunPhase.fetching =>
      if r.aborted then
        { σ with runs := updateRun rid (fun x => { x with phase := RunPhase.cancelledDone }) σ.runs }
      else
        { σ with runs := updateRun rid (fun x => { x with phase := RunPhase.writing 0 }) σ.runs }
    | RunPhase.writing k =>
      if k < nsec then
        { σ with
          runs := updateRun rid (fun x => { x with phase := RunPhase.writing (k + 1) }) σ.runs
          log := σ.log ++ [RunEvent.articleWritten rid k] }
      else
        { σ with
          runs := updateRun rid (fun x => { x with phase := RunPhase.doneOk }) σ.runs
          log := σ.log ++ [RunEvent.indexWritten rid]
          controller := none }
    | _ => σ

/-- A pending fetch of the run rejects for a genuine reason.  If the signal
is aborted the catch block still takes the cancellation branch; otherwise the
failure branch runs and nulls the controller variable. -/
def runStepFail (σ : BatchSys) (rid : Nat) : BatchSys :=
  match findRun rid σ.runs with
  | none => σ
  | some r =>
    match r.phase with
    | RunPhase.fetching =>
      if r.aborted then
        { σ with runs := updateRun rid (fun x => { x with phase := RunPhase.cancelledDone }) σ.runs }
      else
        { σ with
          runs := updateRun rid (fun x => { x with phase := RunPhase.failedDone }) σ.runs
          controller := none }
    | _ => σ

inductive SysEvent where
  | trigger
  | stepOk (rid : Nat)
  | stepFail (rid : Nat)
deriving DecidableEq

def sysStep (nsec : Nat) (σ : BatchSys) : SysEvent → BatchSys
  | SysEvent.trigger => triggerStep σ
  | SysEvent.stepOk rid => runStepOk nsec σ rid
  | SysEvent.stepFail rid => runStepFail σ rid

def initBatchSys : BatchSys :=
  { runs := [], controller := none, log := [], nextRid := 0 }

def runEvents (nsec : Nat) (evs : List SysEvent) : BatchSys :=
  evs.foldl (sysStep nsec) initBatchSys

/-- The run wrote nothing: no article write and no index write carries its id. -/
def neverWrites (σ : BatchSys) (rid : Nat) : Prop :=
  (∀ k, RunEvent.articleWritten rid k ∉ σ.log) ∧ RunEvent.indexWritten rid ∉ σ.log

/-- A run in this phase is inside its `generateAllSections` call. -/
def isActivePhase : RunPhase → Bool
  | RunPhase.fetching => true
  | RunPhase.writing _ => true
  | _ => false

def activeRunCount (σ : BatchSys) : Nat :=
  (σ.runs.filter (fun r => isActivePhase r.phase)).length

/-- The spec claim on supersession, as stated: a cancelled run never writes
any article or index file, and two `generateAllSections` calls are never in
flight at the same time. -/
def supersedeClaim (nsec : Nat) : Prop :=
  (∀ evs r, r ∈ (runEvents nsec evs).runs → r.aborted = true →
    neverWrites (runEvents nsec evs) r.rid) ∧
  (∀ evs, activeRunCount (runEvents nsec evs) ≤ 1)

/-- The ten decimal digit characters. -/
def digitChars : List Char :=
  ['0', '1', '2', '3', '4', '5', '6', '7', '8', '9']

/-! ### Concrete fixtures, mirroring the inputs of the repository test suite -/

def sampleSection1 : Section :=
  { id := "section1", name := "Section 1", reporter := "Reporter 1",
    systemPrompt := "Prompt 1", sectionPrompt := "Write article 1" }

def sampleSection2 : Section :=
  { id := "section2", name := "Section 2", reporter := "Reporter 2",
    systemPrompt := "Prompt 2", sectionPrompt := "Write article 2" }

def sampleConfig : ConfigData :=
  { systemPrompt := some "Global prompt"
    ollamaConfig := { baseUrl := "http://localhost:11434", model := "test-model",
                      temperature := 1 }
    sections := [sampleSection1, sampleSection2] }

def sampleFetchOk : OllamaRequest → FetchOutcome :=
  fun _ => FetchOutcome.response true 200 "OK" "Generated article content"

def sampleFetchFail : OllamaRequest → FetchOutcome :=
  fun req =>
    if req.system = "Global prompt Prompt 2" then FetchOutcome.netError
    else FetchOutcome.response true 200 "OK" "Generated article content"

def sampleFetchAbort : OllamaRequest → FetchOutcome :=
  fun _ => FetchOutcome.abortError

def sampleDate : JsDate :=
  { year := 2024, month := 3, day := 7, hour := 1, minute := 5, second := 59, millis := 123 }

/-- The timer bookkeeping invariant of the scheduler closure: armed timer
ids are below the fresh-id counter and pairwise distinct, every armed retry
timer is the one `retryTimeoutId` points to, and every armed next-day timer
is the one `nextScheduleTimeoutId` points to. -/
def InvSched (s : SchedulerState) : Prop :=
  (∀ t ∈ s.armed, t.id < s.nextTimerId) ∧
  (s.armed.map ArmedTimer.id).Nodup ∧
  (∀ t ∈ s.armed,
    (t.kind = TimerKind.retry → s.retryTimeoutId = some t.id) ∧
    (t.kind = TimerKind.daily → s.nextScheduleTimeoutId = some t.id))

/-- The run id a logged batch event belongs to. -/
def ridOf : RunEvent → Nat
  | RunEvent.abortSignal i => i
  | RunEvent.netCalls i => i
  | RunEvent.articleWritten i _ => i
  | RunEvent.indexWritten i => i

/-- The structural invariant of the batch-run system: run ids and logged ids
are below the fresh-id counter and run ids are pairwise distinct, the
controller points below the counter, a run still fetching (or cancelled out
of its fetch) has written nothing, and for every run that superseded a run
`a`, the abort signal of `a` sits in the log before every network call of
the new run. -/
def InvB (σ : BatchSys) : Prop :=
  (∀ r ∈ σ.runs, r.rid < σ.nextRid) ∧
  ((σ.runs.map RunState.rid).Nodup) ∧
  (∀ ev ∈ σ.log, ridOf ev < σ.nextRid) ∧
  (∀ i, σ.controller = some i → i < σ.nextRid) ∧
  (∀ r ∈ σ.runs, r.phase = RunPhase.fetching ∨ r.phase = RunPhase.cancelledDone →
    (∀ k, RunEvent.articleWritten r.rid k ∉ σ.log) ∧ RunEvent.indexWritten r.rid ∉ σ.log) ∧
  (∀ r ∈ σ.runs, ∀ a, r.superseded = some a →
    ∃ l1 l2, σ.log = l1 ++ RunEvent.abortSignal a :: l2 ∧ RunEvent.netCalls r.rid ∉ l1)

/-- A run that was cancelled while its fan-in was still pending is stuck: it
stays in `fetching` or `cancelledDone` (still aborted) and has no write in
the log. -/
def AbortedStuck (σ : BatchSys) (rid : Nat) : Prop :=
  (∃ r ∈ σ.runs, r.rid = rid ∧ r.aborted = true ∧
    (r.phase = RunPhase.fetching ∨ r.phase = RunPhase.cancelledDone)) ∧
  (∀ k, RunEvent.articleWritten rid k ∉ σ.log) ∧ RunEvent.indexWritten rid ∉ σ.log

/-! ## Theorems -/

/-- C8: the claim says every request whose resolved path lies outside the
public root is answered 403 and never reaches a filesystem read.  The code
checks `resolvedPath.startsWith(resolve(publicDir))` with no trailing
separator, so a sibling directory whose name has the public root as a string
prefix slips through: with `baseDir = "/app/src"` (public root
`/app/public`) the request pathname `/../publicx` resolves to
`/app/publicx`, which is outside the root, yet the handler proceeds to the
filesystem read instead of responding 403. -/
theorem request_handler_bypass :
    createRequestHandler "/app/src" "/../publicx" = HandlerAction.readFile "/app/publicx" ∧
    withinRoot (pathJoin "/app/src" "../public") "/app/publicx" = false := by
  decide

/-- C6: under the daily-at-01:00 policy, `getNext1AM` returns today at
01:00:00.000 when `now` is strictly before 01:00 today, and otherwise
tomorrow at 01:00:00.000. -/
theorem getNext1AM_correct (now : SimpleTime) :
    (now.msOfDay < oneAMms → getNext1AM now = { day := now.day, msOfDay := oneAMms }) ∧
    (oneAMms ≤ now.msOfDay → getNext1AM now = { day := now.day + 1, msOfDay := oneAMms }) := by
  constructor
  · intro h
    simp only [oneAMms] at h
    simp only [getNext1AM, SimpleTime.abs, oneAMms, msPerDay]
    rw [if_neg (by omega)]
  · intro h
    simp only [oneAMms] at h
    simp only [getNext1AM, SimpleTime.abs, oneAMms, msPerDay]
    rw [if_pos (by omega)]

/-- Witness for C6 at concrete instants: from 14:30 (52 200 000 ms into day
5) the next trigger is 01:00 on day 6; from 00:00:01 it is 01:00 the same
day. -/
theorem getNext1AM_witness :
    getNext1AM { day := 5, msOfDay := 52200000 } = { day := 6, msOfDay := 3600000 } ∧
    getNext1AM { day := 5, msOfDay := 1000 } = { day := 5, msOfDay := 3600000 } :=
  ⟨(getNext1AM_correct { day := 5, msOfDay := 52200000 }).2 (by decide),
   (getNext1AM_correct { day := 5, msOfDay := 1000 }).1 (by decide)⟩

/-- C5: with a configured non-empty global prompt G the effective system
prompt is `G ++ " " ++ S.systemPrompt`; with no configured global prompt it
is `S.systemPrompt` exactly. -/
theorem fullSystemPrompt_correct (g s : String) (hg : g ≠ "") :
    fullSystemPrompt (some g) s = g ++ " " ++ s ∧ fullSystemPrompt none s = s := by
  refine ⟨?_, rfl⟩
  simp [fullSystemPrompt, jsTruthy, hg]

/-- Witness for C5 at the prompts used by the repository test suite. -/
theorem fullSystemPrompt_witness :
    fullSystemPrompt (some "Global system prompt") "Section-specific prompt" =
      "Global system prompt Section-specific prompt" ∧
    fullSystemPrompt none "Section-specific prompt" = "Section-specific prompt" := by
  have h := fullSystemPrompt_correct "Global system prompt" "Section-specific prompt"
    (by decide)
  exact ⟨by rw [h.1]; decide, h.2⟩

/-- C7: whatever failure `callOllama` surfaces (upstream error status,
transport failure or abort), `generateSection` propagates exactly that
failure and never returns a substitute result. -/
theorem generateSection_propagates («section» : Section) (configData : ConfigData)
    (fetch : OllamaRequest → FetchOutcome) (nowISO : String) (e : GenError)
    (h : callOllama (fullSystemPrompt configData.systemPrompt «section».systemPrompt)
        «section».sectionPrompt configData.ollamaConfig fetch = Except.error e) :
    generateSection «section» configData fetch nowISO = Except.error e ∧
    ∀ r, generateSection «section» configData fetch nowISO ≠ Except.ok r := by
  unfold generateSection
  rw [h]
  exact ⟨rfl, fun r hr => by cases hr⟩

/-- Witness for C7: a 500 upstream response propagates as the upstream
failure through `generateSection`. -/
theorem generateSection_propagates_witness :
    generateSection
      { id := "s", name := "S", reporter := "R", systemPrompt := "sp", sectionPrompt := "p" }
      { systemPrompt := none,
        ollamaConfig := { baseUrl := "u", model := "m", temperature := 1 }, sections := [] }
      (fun _ => FetchOutcome.response false 500 "Internal Server Error" "") "ts"
      = Except.error (GenError.upstream 500 "Internal Server Error") :=
  (generateSection_propagates
    { id := "s", name := "S", reporter := "R", systemPrompt := "sp", sectionPrompt := "p" }
    { systemPrompt := none,
      ollamaConfig := { baseUrl := "u", model := "m", temperature := 1 }, sections := [] }
    (fun _ => FetchOutcome.response false 500 "Internal Server Error" "") "ts"
    (GenError.upstream 500 "Internal Server Error") rfl).1

/-! ### The storage-key format -/

theorem digitChar_lt10_mem (k : Nat) (h : k < 10) : Nat.digitChar k ∈ digitChars := by
  interval_cases k <;> decide

theorem digitChar_mod10_mem (n : Nat) : Nat.digitChar (n % 10) ∈ digitChars :=
  digitChar_lt10_mem _ (Nat.mod_lt _ (by omega))

theorem mem_pad2 (n : Nat) : ∀ c ∈ pad2 n, c ∈ digitChars := by
  intro c hc
  simp only [pad2, List.mem_cons, List.not_mem_nil, or_false] at hc
  rcases hc with rfl | rfl <;> exact digitChar_mod10_mem _

theorem mem_pad3 (n : Nat) : ∀ c ∈ pad3 n, c ∈ digitChars := by
  intro c hc
  simp only [pad3, List.mem_cons, List.not_mem_nil, or_false] at hc
  rcases hc with rfl | rfl | rfl <;> exact digitChar_mod10_mem _

theorem mem_pad4 (n : Nat) : ∀ c ∈ pad4 n, c ∈ digitChars := by
  intro c hc
  simp only [pad4, List.mem_cons, List.not_mem_nil, or_false] at hc
  rcases hc with rfl | rfl | rfl | rfl <;> exact digitChar_mod10_mem _

theorem mem_isoDateChars (d : JsDate) :
    ∀ c ∈ isoDateChars d, c = '-' ∨ c ∈ digitChars := by
  intro c hc
  simp only [isoDateChars, List.mem_append, List.mem_cons, or_assoc] at hc
  rcases hc with h | h | h | h | h
  · exact Or.inr (mem_pad4 _ _ h)
  · exact Or.inl h
  · exact Or.inr (mem_pad2 _ _ h)
  · exact Or.inl h
  · exact Or.inr (mem_pad2 _ _ h)

theorem mem_isoTimeChars (d : JsDate) :
    ∀ c ∈ isoTimeChars d, c = ':' ∨ c = '.' ∨ c = 'Z' ∨ c ∈ digitChars := by
  intro c hc
  simp only [isoTimeChars, List.mem_append, List.mem_cons, List.not_mem_nil, or_false,
    or_assoc] at hc
  rcases hc with h | h | h | h | h | h | h | h
  · exact Or.inr (Or.inr (Or.inr (mem_pad2 _ _ h)))
  · exact Or.inl h
  · exact Or.inr (Or.inr (Or.inr (mem_pad2 _ _ h)))
  · exact Or.inl h
  · exact Or.inr (Or.inr (Or.inr (mem_pad2 _ _ h)))
  · exact Or.inr (Or.inl h)
  · exact Or.inr (Or.inr (Or.inr (mem_pad3 _ _ h)))
  · exact Or.inr (Or.inr (Or.inl h))

theorem T_not_mem_dateChars (d : JsDate) : 'T' ∉ isoDateChars d := by
  intro h
  rcases mem_isoDateChars d _ h with h1 | h1
  · exact absurd h1 (by decide)
  · exact absurd h1 (by decide)

theorem T_not_mem_timeChars (d : JsDate) : 'T' ∉ isoTimeChars d := by
  intro h
  rcases mem_isoTimeChars d _ h with h1 | h1 | h1 | h1 <;> exact absurd h1 (by decide)

theorem colon_not_mem_pad2 (n : Nat) : ':' ∉ pad2 n := by
  intro h
  exact absurd (mem_pad2 n _ h) (by decide)

theorem dashColonsDots_append (a b : List Char) :
    dashColonsDots (a ++ b) = dashColonsDots a ++ dashColonsDots b :=
  List.map_append _ a b

theorem dashColonsDots_cons (c : Char) (cs : List Char) :
    dashColonsDots (c :: cs)
      = (if c = ':' ∨ c = '.' then '-' else c) :: dashColonsDots cs := rfl

theorem dashColonsDots_eq_self (cs : List Char)
    (h : ∀ c ∈ cs, c ≠ ':' ∧ c ≠ '.') : dashColonsDots cs = cs := by
  induction cs with
  | nil => rfl
  | cons c cs ih =>
    have hc := h c (List.mem_cons_self c cs)
    have ih2 := ih (fun x hx => h x (List.mem_cons_of_mem _ hx))
    show (if c = ':' ∨ c = '.' then '-' else c) :: dashColonsDots cs = c :: cs
    rw [if_neg (by tauto), ih2]

theorem splitOnChar_ne_nil (sep : Char) (cs : List Char) : splitOnChar sep cs ≠ [] := by
  cases cs with
  | nil => simp [splitOnChar]
  | cons c cs =>
    cases h : splitOnChar sep cs with
    | nil => simp [splitOnChar, h]
    | cons y ys =>
      simp only [splitOnChar, h]
      split <;> simp

theorem splitOnChar_not_mem (sep : Char) (cs : List Char) (h : sep ∉ cs) :
    splitOnChar sep cs = [cs] := by
  induction cs with
  | nil => rfl
  | cons c cs ih =>
    simp only [List.mem_cons] at h
    push_neg at h
    have ih2 := ih h.2
    simp [splitOnChar, ih2, Ne.symm h.1]

theorem splitOnChar_append_sep (sep : Char) (a b : List Char) (ha : sep ∉ a) :
    splitOnChar sep (a ++ sep :: b) = a :: splitOnChar sep b := by
  induction a with
  | nil =>
    simp only [List.nil_append]
    cases h : splitOnChar sep b with
    | nil => exact absurd h (splitOnChar_ne_nil sep b)
    | cons y ys => simp [splitOnChar, h]
  | cons c a ih =>
    simp only [List.mem_cons] at ha
    push_neg at ha
    have ih2 := ih ha.2
    simp [splitOnChar, ih2, Ne.symm ha.1]

theorem splitOnChar_two (sep : Char) (a b : List Char) (ha : sep ∉ a) (hb : sep ∉ b) :
    splitOnChar sep (a ++ sep :: b) = [a, b] := by
  rw [splitOnChar_append_sep sep a b ha, splitOnChar_not_mem sep b hb]

theorem dashFirstColon_append (a b : List Char) (ha : ':' ∉ a) :
    dashFirstColon (a ++ ':' :: b) = a ++ '-' :: b := by
  induction a with
  | nil => simp [dashFirstColon]
  | cons c a ih =>
    simp only [List.mem_cons] at ha
    push_neg at ha
    simp [dashFirstColon, ih ha.2, Ne.symm ha.1]

/-- The storage key computed by the code equals the `YYYY-MM-DD_HH-MM` format
the spec promises, on every instant. -/
theorem mkDateFolder_eq_spec (d : JsDate) : mkDateFolder d = specDateFolder d := by
  have hdate_cd : ∀ c ∈ isoDateChars d, c ≠ ':' ∧ c ≠ '.' := by
    intro c hc
    rcases mem_isoDateChars d c hc with rfl | h
    · exact ⟨by decide, by decide⟩
    · constructor <;> (rintro rfl; exact absurd h (by decide))
  have hTdate := T_not_mem_dateChars d
  have hTtime := T_not_mem_timeChars d
  have hrepl : dashColonsDots (toISOChars d)
      = isoDateChars d ++ 'T' :: dashColonsDots (isoTimeChars d) := by
    unfold toISOChars
    rw [dashColonsDots_append, dashColonsDots_cons, dashColonsDots_eq_self _ hdate_cd]
    simp
  have hTtime2 : 'T' ∉ dashColonsDots (isoTimeChars d) := by
    intro hmem
    rcases List.mem_map.1 hmem with ⟨c, hc, hfc⟩
    by_cases h1 : c = ':' ∨ c = '.'
    · rw [if_pos h1] at hfc
      exact absurd hfc (by decide)
    · rw [if_neg h1] at hfc
      subst hfc
      exact hTtime hc
  have hsplit1 : splitOnChar 'T' (dashColonsDots (toISOChars d))
      = [isoDateChars d, dashColonsDots (isoTimeChars d)] := by
    rw [hrepl]
    exact splitOnChar_two _ _ _ hTdate hTtime2
  have hsplit2 : splitOnChar 'T' (toISOChars d) = [isoDateChars d, isoTimeChars d] :=
    splitOnChar_two _ _ _ hTdate hTtime
  have htake : (isoTimeChars d).take 5 = pad2 d.hour ++ ':' :: pad2 d.minute := rfl
  show String.mk _ = _
  rw [hsplit1, hsplit2]
  simp only [List.getD, List.get?, Option.getD]
  rw [htake, dashFirstColon_append _ _ (colon_not_mem_pad2 d.hour)]
  simp [isoDateChars, specDateFolder, List.append_assoc]

/-! ### Batch generator lemmas -/

@[simp] theorem isArticle_mkdirRec (dir : String) :
    WriteEvent.isArticle (WriteEvent.mkdirRec dir) = false := rfl

@[simp] theorem isArticle_articleFile (p c : String) :
    WriteEvent.isArticle (WriteEvent.articleFile p c) = true := rfl

@[simp] theorem isArticle_indexFile (p : String) (its : List NewsItem) (g : String) :
    WriteEvent.isArticle (WriteEvent.indexFile p its g) = false := rfl

@[simp] theorem isIndex_mkdirRec (dir : String) :
    WriteEvent.isIndex (WriteEvent.mkdirRec dir) = false := rfl

@[simp] theorem isIndex_articleFile (p c : String) :
    WriteEvent.isIndex (WriteEvent.articleFile p c) = false := rfl

@[simp] theorem isIndex_indexFile (p : String) (its : List NewsItem) (g : String) :
    WriteEvent.isIndex (WriteEvent.indexFile p its g) = true := rfl

theorem collectResults_ok (l : List (Except GenError GenerationResult))
    (h : ∀ x ∈ l, x.isOk = true) :
    ∃ rs, collectResults l = Except.ok rs ∧
      List.Forall₂ (fun x r => x = Except.ok r) l rs := by
  induction l with
  | nil => exact ⟨[], rfl, List.Forall₂.nil⟩
  | cons x xs ih =>
    obtain ⟨rs, hrs, hall⟩ := ih (fun y hy => h y (List.mem_cons_of_mem _ hy))
    have hx := h x (List.mem_cons_self _ _)
    match x, hx with
    | Except.ok r, _ =>
      refine ⟨r :: rs, ?_, List.Forall₂.cons rfl hall⟩
      simp [collectResults, hrs]

theorem collectResults_error (l : List (Except GenError GenerationResult))
    (h : ∃ x ∈ l, x.isOk = false) :
    ∃ e, collectResults l = Except.error e := by
  induction l with
  | nil => simp at h
  | cons x xs ih =>
    cases x with
    | error e => exact ⟨e, rfl⟩
    | ok r =>
      rcases h with ⟨y, hy, hyf⟩
      rcases List.mem_cons.1 hy with rfl | hmem
      · simp [Except.isOk, Except.toBool] at hyf
      · obtain ⟨e, he⟩ := ih ⟨y, hmem, hyf⟩
        exact ⟨e, by simp [collectResults, he]⟩

theorem generateSection_ok_fields («section» : Section) (configData : ConfigData)
    (fetch : OllamaRequest → FetchOutcome) (nowISO : String) (r : GenerationResult)
    (h : generateSection «section» configData fetch nowISO = Except.ok r) :
    r.id = «section».id ∧ r.name = «section».name ∧ r.reporter = «section».reporter ∧
      r.timestamp = nowISO := by
  unfold generateSection at h
  cases hc : callOllama (fullSystemPrompt configData.systemPrompt «section».systemPrompt)
      «section».sectionPrompt configData.ollamaConfig fetch with
  | error e => rw [hc] at h; cases h
  | ok content =>
    rw [hc] at h
    cases h
    exact ⟨rfl, rfl, rfl, rfl⟩

theorem saved_filter_article (baseDir filename : String) (toLocale : String → String)
    (rs : List GenerationResult) :
    (((rs.map (saveSection baseDir filename toLocale)).map Prod.fst).flatten).filter
        WriteEvent.isArticle
      = rs.map (fun r => WriteEvent.articleFile
          (pathJoin (pathJoin3 baseDir "../public/sections" r.id) filename)
          (articleHtml r toLocale)) := by
  induction rs with
  | nil => rfl
  | cons r rs ih =>
    simp only [List.map_cons, List.flatten_cons, List.filter_append, ih, saveSection]
    simp

theorem saved_filter_index (baseDir filename : String) (toLocale : String → String)
    (rs : List GenerationResult) :
    (((rs.map (saveSection baseDir filename toLocale)).map Prod.fst).flatten).filter
        WriteEvent.isIndex = [] := by
  induction rs with
  | nil => rfl
  | cons r rs ih =>
    simp only [List.map_cons, List.flatten_cons, List.filter_append, ih, saveSection]
    simp

theorem indexItemLists_append (a b : List WriteEvent) :
    indexItemLists (a ++ b) = indexItemLists a ++ indexItemLists b :=
  List.filterMap_append _ _ _

theorem saved_indexItemLists (baseDir filename : String) (toLocale : String → String)
    (rs : List GenerationResult) :
    indexItemLists (((rs.map (saveSection baseDir filename toLocale)).map Prod.fst).flatten)
      = [] := by
  induction rs with
  | nil => rfl
  | cons r rs ih =>
    rw [List.map_cons, List.map_cons, List.flatten_cons, indexItemLists_append, ih]
    rfl

theorem saved_snd (baseDir filename : String) (toLocale : String → String)
    (rs : List GenerationResult) :
    (rs.map (saveSection baseDir filename toLocale)).map Prod.snd
      = rs.map (fun r =>
          { id := r.id, name := r.name, reporter := r.reporter,
            url := "./sections/" ++ r.id ++ "/" ++ filename,
            timestamp := r.timestamp : NewsItem }) := by
  rw [List.map_map]
  rfl

/-- C3: a batch over N sections in which every section generation succeeds
writes exactly N article files — one per section, at
`sections/{id}/{dateFolder}.html` with `dateFolder` in `YYYY-MM-DD_HH-MM`
format — and performs exactly one index write whose items list has exactly N
entries, each entry id equal to its source section id. -/
theorem generateAllSections_success_shape
    (configData : ConfigData) (baseDir : String) (fetch : OllamaRequest → FetchOutcome)
    (nowISO : String) (completionDate : JsDate) (genISO : String) (toLocale : String → String)
    (ws : List WriteEvent) (out : Except GenError Unit)
    (heq : generateAllSections configData baseDir fetch nowISO completionDate genISO toLocale
      = (ws, out))
    (h : ∀ s ∈ configData.sections, (generateSection s configData fetch nowISO).isOk = true) :
    out = Except.ok () ∧
    (ws.filter WriteEvent.isArticle).length = configData.sections.length ∧
    (ws.filter WriteEvent.isIndex).length = 1 ∧
    (∃ items, indexItemLists ws = [items] ∧
      items.length = configData.sections.length ∧
      List.Forall₂ (fun s it => NewsItem.id it = Section.id s) configData.sections items) ∧
    List.Forall₂ (fun s w => ∃ content, w = WriteEvent.articleFile
        (pathJoin (pathJoin3 baseDir "../public/sections" s.id)
          (specDateFolder completionDate ++ ".html")) content)
      configData.sections (ws.filter WriteEvent.isArticle) := by
  obtain ⟨rs, hrs, hall⟩ := collectResults_ok
    (configData.sections.map fun s => generateSection s configData fetch nowISO)
    (by
      intro x hx
      rcases List.mem_map.1 hx with ⟨s, hs, rfl⟩
      exact h s hs)
  have hall2 : List.Forall₂
      (fun s r => generateSection s configData fetch nowISO = Except.ok r)
      configData.sections rs := List.forall₂_map_left_iff.1 hall
  have hids : List.Forall₂ (fun s r => GenerationResult.id r = Section.id s)
      configData.sections rs :=
    hall2.imp (fun s r hsr => (generateSection_ok_fields s configData fetch nowISO r hsr).1)
  have hlen : configData.sections.length = rs.length := hall2.length_eq
  unfold generateAllSections at heq
  rw [hrs] at heq
  simp only [Prod.mk.injEq] at heq
  obtain ⟨hws, hout⟩ := heq
  subst hws
  subst hout
  refine ⟨rfl, ?_, ?_, ?_, ?_⟩
  · rw [List.filter_append, saved_filter_article]
    simp [hlen]
  · rw [List.filter_append, saved_filter_index]
    simp
  · refine ⟨(rs.map (saveSection baseDir (mkDateFolder completionDate ++ ".html")
      toLocale)).map Prod.snd, ?_, ?_, ?_⟩
    · unfold indexItemLists
      rw [List.filterMap_append]
      rw [show List.filterMap _ (((rs.map (saveSection baseDir
          (mkDateFolder completionDate ++ ".html") toLocale)).map Prod.fst).flatten) = [] from
        saved_indexItemLists _ _ _ _]
      simp [indexItemLists]
    · simp [hlen]
    · rw [saved_snd, List.forall₂_map_right_iff]
      exact hids.imp (fun s r hsr => hsr)
  · rw [List.filter_append, saved_filter_article]
    have : List.filter WriteEvent.isArticle
        [WriteEvent.indexFile (pathJoin baseDir "../public/news.json")
          ((rs.map (saveSection baseDir (mkDateFolder completionDate ++ ".html")
            toLocale)).map Prod.snd) genISO] = [] := by simp
    rw [this, List.append_nil, List.forall₂_map_right_iff]
    refine hids.imp (fun s r hsr => ?_)
    refine ⟨articleHtml r toLocale, ?_⟩
    rw [hsr, mkDateFolder_eq_spec]

/-- Witness for C3 on the two-section fixture configuration: two article
writes and one index write. -/
theorem generateAllSections_success_witness :
    ((generateAllSections sampleConfig "/app/src" sampleFetchOk "ts" sampleDate "gen"
        (fun s => s)).1.filter WriteEvent.isArticle).length
      = sampleConfig.sections.length ∧
    ((generateAllSections sampleConfig "/app/src" sampleFetchOk "ts" sampleDate "gen"
        (fun s => s)).1.filter WriteEvent.isIndex).length = 1 :=
  ⟨(generateAllSections_success_shape sampleConfig "/app/src" sampleFetchOk "ts" sampleDate
      "gen" (fun s => s) _ _ rfl (by decide)).2.1,
   (generateAllSections_success_shape sampleConfig "/app/src" sampleFetchOk "ts" sampleDate
      "gen" (fun s => s) _ _ rfl (by decide)).2.2.1⟩

/-- C4: if any section generation fails and the batch was not cancelled, the
batch as a whole fails and no index write happens, leaving the index file
untouched. -/
theorem generateAllSections_failure_no_index
    (configData : ConfigData) (baseDir : String) (fetch : OllamaRequest → FetchOutcome)
    (nowISO : String) (completionDate : JsDate) (genISO : String) (toLocale : String → String)
    (ws : List WriteEvent) (out : Except GenError Unit)
    (heq : generateAllSections configData baseDir fetch nowISO completionDate genISO toLocale
      = (ws, out))
    (h : ∃ s ∈ configData.sections,
      (generateSection s configData fetch nowISO).isOk = false) :
    (∃ e, out = Except.error e) ∧ ws.filter WriteEvent.isIndex = [] ∧
      indexItemLists ws = [] := by
  obtain ⟨e, he⟩ := collectResults_error
    (configData.sections.map fun s => generateSection s configData fetch nowISO)
    (by
      rcases h with ⟨s, hs, hf⟩
      exact ⟨generateSection s configData fetch nowISO, List.mem_map_of_mem _ hs, hf⟩)
  unfold generateAllSections at heq
  rw [he] at heq
  simp only [Prod.mk.injEq] at heq
  obtain ⟨hws, hout⟩ := heq
  subst hws
  subst hout
  exact ⟨⟨e, rfl⟩, rfl, rfl⟩

/-- Witness for C4: with the second section failing at transport level, the
fixture batch performs no index write. -/
theorem generateAllSections_failure_no_index_witness :
    indexItemLists (generateAllSections sampleConfig "/app/src" sampleFetchFail "ts"
      sampleDate "gen" (fun s => s)).1 = [] :=
  (generateAllSections_failure_no_index sampleConfig "/app/src" sampleFetchFail "ts"
    sampleDate "gen" (fun s => s) _ _ rfl (by decide)).2.2

/-- C9: if any section generation fails or the batch is cancelled, the batch
performs no file writes at all — every write of `generateAllSections` sits
after the full fan-in has succeeded. -/
theorem generateAllSections_failure_no_writes
    (configData : ConfigData) (baseDir : String) (fetch : OllamaRequest → FetchOutcome)
    (nowISO : String) (completionDate : JsDate) (genISO : String) (toLocale : String → String)
    (ws : List WriteEvent) (out : Except GenError Unit)
    (heq : generateAllSections configData baseDir fetch nowISO completionDate genISO toLocale
      = (ws, out))
    (h : ∃ s ∈ configData.sections,
      (generateSection s configData fetch nowISO).isOk = false) :
    ws = [] := by
  obtain ⟨e, he⟩ := collectResults_error
    (configData.sections.map fun s => generateSection s configData fetch nowISO)
    (by
      rcases h with ⟨s, hs, hf⟩
      exact ⟨generateSection s configData fetch nowISO, List.mem_map_of_mem _ hs, hf⟩)
  unfold generateAllSections at heq
  rw [he] at heq
  simp only [Prod.mk.injEq] at heq
  exact heq.1.symm

/-- Witness for C9: a batch whose fetches are all rejected by the abort
signal writes nothing whatsoever. -/
theorem generateAllSections_failure_no_writes_witness :
    (generateAllSections sampleConfig "/app/src" sampleFetchAbort "ts" sampleDate "gen"
      (fun s => s)).1 = [] :=
  generateAllSections_failure_no_writes sampleConfig "/app/src" sampleFetchAbort "ts"
    sampleDate "gen" (fun s => s) _ _ rfl (by decide)

theorem map_eq_of_forall2 {α β γ : Type} (f : α → γ) (g : β → γ) (l : List α) (m : List β)
    (h : List.Forall₂ (fun a b => g b = f a) l m) : m.map g = l.map f := by
  induction h with
  | nil => rfl
  | cons hab _ ih => simp [ih, hab]

/-- C10: on a successful batch the items of the single index write list the
sections in exactly the configured order — `Promise.all` preserves input
order and the save loop walks the results in that order — with one entry per
section and, for distinct section ids, no duplicates. -/
theorem index_order_matches_sections
    (configData : ConfigData) (baseDir : String) (fetch : OllamaRequest → FetchOutcome)
    (nowISO : String) (completionDate : JsDate) (genISO : String) (toLocale : String → String)
    (ws : List WriteEvent) (out : Except GenError Unit)
    (heq : generateAllSections configData baseDir fetch nowISO completionDate genISO toLocale
      = (ws, out))
    (h : ∀ s ∈ configData.sections, (generateSection s configData fetch nowISO).isOk = true) :
    ∃ items, indexItemLists ws = [items] ∧
      items.map NewsItem.id = configData.sections.map Section.id ∧
      ((configData.sections.map Section.id).Nodup → (items.map NewsItem.id).Nodup) := by
  obtain ⟨rs, hrs, hall⟩ := collectResults_ok
    (configData.sections.map fun s => generateSection s configData fetch nowISO)
    (by
      intro x hx
      rcases List.mem_map.1 hx with ⟨s, hs, rfl⟩
      exact h s hs)
  have hall2 : List.Forall₂
      (fun s r => generateSection s configData fetch nowISO = Except.ok r)
      configData.sections rs := List.forall₂_map_left_iff.1 hall
  have hids : List.Forall₂ (fun s r => GenerationResult.id r = Section.id s)
      configData.sections rs :=
    hall2.imp (fun s r hsr => (generateSection_ok_fields s configData fetch nowISO r hsr).1)
  unfold generateAllSections at heq
  rw [hrs] at heq
  simp only [Prod.mk.injEq] at heq
  obtain ⟨hws, hout⟩ := heq
  subst hws
  subst hout
  have hmap : ((rs.map (saveSection baseDir (mkDateFolder completionDate ++ ".html")
      toLocale)).map Prod.snd).map NewsItem.id = configData.sections.map Section.id := by
    rw [saved_snd, List.map_map]
    exact map_eq_of_forall2 Section.id _ _ _ hids
  refine ⟨(rs.map (saveSection baseDir (mkDateFolder completionDate ++ ".html")
      toLocale)).map Prod.snd, ?_, hmap, ?_⟩
  · rw [indexItemLists_append, saved_indexItemLists]
    rfl
  · intro hnd
    rw [hmap]
    exact hnd

/-- Witness for C10 on the fixture configuration: the single index write
lists the ids in the configured order. -/
theorem index_order_matches_sections_witness :
    ∃ items,
      indexItemLists (generateAllSections sampleConfig "/app/src" sampleFetchOk "ts"
        sampleDate "gen" (fun s => s)).1 = [items] ∧
      items.map NewsItem.id = sampleConfig.sections.map Section.id ∧
      ((sampleConfig.sections.map Section.id).Nodup → (items.map NewsItem.id).Nodup) :=
  index_order_matches_sections sampleConfig "/app/src" sampleFetchOk "ts" sampleDate "gen"
    (fun s => s) _ _ rfl (by decide)

/-! ### Scheduler timer invariant -/

theorem mem_clearTimeout (s : SchedulerState) (i : Nat) (t : ArmedTimer) :
    t ∈ (clearTimeout s i).armed ↔ t ∈ s.armed ∧ t.id ≠ i := by
  simp [clearTimeout, List.mem_filter]

theorem nodup_ids_append_fresh (l : List ArmedTimer) (n : Nat) (k : TimerKind) (d : Nat)
    (hnd : (l.map ArmedTimer.id).Nodup) (hlt : ∀ t ∈ l, t.id < n) :
    ((l ++ [({ id := n, kind := k, delay := d } : ArmedTimer)]).map ArmedTimer.id).Nodup := by
  rw [List.map_append, List.nodup_append]
  refine ⟨hnd, by simp, ?_⟩
  intro x hx
  rcases List.mem_map.1 hx with ⟨t, ht, rfl⟩
  simp only [List.map_cons, List.map_nil, List.mem_singleton]
  intro heq
  exact absurd heq (Nat.ne_of_lt (hlt t ht))

theorem nodup_ids_clear (s : SchedulerState) (i : Nat)
    (hnd : (s.armed.map ArmedTimer.id).Nodup) :
    ((clearTimeout s i).armed.map ArmedTimer.id).Nodup :=
  hnd.sublist ((List.filter_sublist s.armed).map ArmedTimer.id)

theorem retryTimers_eq_nil_of_none (s : SchedulerState) (hInv : InvSched s)
    (h : s.retryTimeoutId = none) : retryTimers s = [] := by
  rw [retryTimers, List.filter_eq_nil_iff]
  intro t ht
  simp only [decide_eq_true_eq]
  intro hk
  rw [(hInv.2.2 t ht).1 hk] at h
  cases h

theorem length_le_one_of_same_id (l : List ArmedTimer) (i : Nat)
    (hnd : (l.map ArmedTimer.id).Nodup) (hall : ∀ t ∈ l, t.id = i) : l.length ≤ 1 := by
  match l, hnd, hall with
  | [], _, _ => simp
  | [t], _, _ => simp
  | t1 :: t2 :: rest, hnd, hall =>
    exfalso
    have h1 := hall t1 (by simp)
    have h2 := hall t2 (by simp)
    simp only [List.map_cons, List.nodup_cons, List.mem_cons, List.mem_map] at hnd
    exact hnd.1 (Or.inl (h1.trans h2.symm))

/-- At most one retry timer is armed in any state satisfying the invariant. -/
theorem retryTimers_le_one (s : SchedulerState) (hInv : InvSched s) :
    (retryTimers s).length ≤ 1 := by
  cases hptr : s.retryTimeoutId with
  | none => simp [retryTimers_eq_nil_of_none s hInv hptr]
  | some i =>
    apply length_le_one_of_same_id _ i
    · exact hInv.2.1.sublist ((List.filter_sublist s.armed).map ArmedTimer.id)
    · intro t ht
      rw [retryTimers, List.mem_filter] at ht
      have := (hInv.2.2 t ht.1).1 (by simpa using ht.2)
      rw [hptr] at this
      injection this with h
      exact h.symm

theorem invSched_init (now0 : SimpleTime) : InvSched (startTimerInit now0) := by
  refine ⟨?_, ?_, ?_⟩ <;>
    simp [startTimerInit, scheduleNextDay, setTimeout, clearTimeout]

theorem invSched_clearTimeout (s : SchedulerState) (hInv : InvSched s) (i : Nat) :
    InvSched (clearTimeout s i) := by
  obtain ⟨hlt, hnd, hptr⟩ := hInv
  refine ⟨?_, nodup_ids_clear s i hnd, ?_⟩
  · intro t ht
    exact hlt t ((mem_clearTimeout s i t).1 ht).1
  · intro t ht
    exact hptr t ((mem_clearTimeout s i t).1 ht).1

theorem retryTimers_clear_self (s : SchedulerState) (hInv : InvSched s) (i : Nat)
    (hi : s.retryTimeoutId = some i) : retryTimers (clearTimeout s i) = [] := by
  rw [retryTimers, List.filter_eq_nil_iff]
  intro t ht
  rw [mem_clearTimeout] at ht
  simp only [decide_eq_true_eq]
  intro hk
  have := (hInv.2.2 t ht.1).1 hk
  rw [hi] at this
  injection this with hh
  exact absurd hh.symm ht.2

theorem invSched_clearRetryNull (s : SchedulerState) (hInv : InvSched s) (i : Nat)
    (hi : s.retryTimeoutId = some i) :
    InvSched { clearTimeout s i with retryTimeoutId := none } := by
  obtain ⟨hlt, hnd, hptr⟩ := hInv
  refine ⟨?_, nodup_ids_clear s i hnd, ?_⟩
  · intro t ht
    have ht2 : t ∈ (clearTimeout s i).armed := ht
    exact hlt t ((mem_clearTimeout s i t).1 ht2).1
  · intro t ht
    have ht2 : t ∈ (clearTimeout s i).armed := ht
    rw [mem_clearTimeout] at ht2
    refine ⟨?_, (hptr t ht2.1).2⟩
    intro hk
    have := (hptr t ht2.1).1 hk
    rw [hi] at this
    injection this with hh
    exact absurd hh.symm ht2.2

theorem invSched_clearDailyNull (s : SchedulerState) (hInv : InvSched s) (i : Nat)
    (hi : s.nextScheduleTimeoutId = some i) :
    InvSched { clearTimeout s i with nextScheduleTimeoutId := none } := by
  obtain ⟨hlt, hnd, hptr⟩ := hInv
  refine ⟨?_, nodup_ids_clear s i hnd, ?_⟩
  · intro t ht
    have ht2 : t ∈ (clearTimeout s i).armed := ht
    exact hlt t ((mem_clearTimeout s i t).1 ht2).1
  · intro t ht
    have ht2 : t ∈ (clearTimeout s i).armed := ht
    rw [mem_clearTimeout] at ht2
    refine ⟨(hptr t ht2.1).1, ?_⟩
    intro hk
    have := (hptr t ht2.1).2 hk
    rw [hi] at this
    injection this with hh
    exact absurd hh.symm ht2.2

theorem invSched_scheduleNextDay (s : SchedulerState) (hInv : InvSched s)
    (now : SimpleTime) : InvSched (scheduleNextDay s now) := by
  obtain ⟨hlt, hnd, hptr⟩ := hInv
  cases h2 : s.nextScheduleTimeoutId with
  | none =>
    simp only [scheduleNextDay, h2, setTimeout]
    refine ⟨?_, nodup_ids_append_fresh _ _ _ _ hnd hlt, ?_⟩
    · intro t ht
      rcases List.mem_append.1 ht with hmem | hmem
      · exact Nat.lt_succ_of_lt (hlt t hmem)
      · simp only [List.mem_singleton] at hmem
        subst hmem
        exact Nat.lt_succ_self _
    · intro t ht
      rcases List.mem_append.1 ht with hmem | hmem
      · refine ⟨(hptr t hmem).1, ?_⟩
        intro hk
        have := (hptr t hmem).2 hk
        rw [h2] at this
        cases this
      · simp only [List.mem_singleton] at hmem
        subst hmem
        exact ⟨(fun hk => nomatch hk), fun _ => rfl⟩
  | some j =>
    simp only [scheduleNextDay, h2, setTimeout]
    refine ⟨?_, ?_, ?_⟩
    · intro t ht
      rcases List.mem_append.1 ht with hmem | hmem
      · have hmem2 : t ∈ (clearTimeout s j).armed := hmem
        exact Nat.lt_succ_of_lt (hlt t ((mem_clearTimeout s j t).1 hmem2).1)
      · simp only [List.mem_singleton] at hmem
        subst hmem
        exact Nat.lt_succ_self _
    · exact nodup_ids_append_fresh _ _ _ _ (nodup_ids_clear s j hnd)
        (fun t ht => hlt t ((mem_clearTimeout s j t).1 ht).1)
    · intro t ht
      rcases List.mem_append.1 ht with hmem | hmem
      · have hmem2 : t ∈ (clearTimeout s j).armed := hmem
        rw [mem_clearTimeout] at hmem2
        refine ⟨(hptr t hmem2.1).1, ?_⟩
        intro hk
        have := (hptr t hmem2.1).2 hk
        rw [h2] at this
        injection this with hh
        exact absurd hh.symm hmem2.2
      · simp only [List.mem_singleton] at hmem
        subst hmem
        exact ⟨(fun hk => nomatch hk), fun _ => rfl⟩

theorem invSched_armRetry (s1 : SchedulerState) (hInv : InvSched s1)
    (hno : retryTimers s1 = []) :
    InvSched { armed := s1.armed ++
                 [{ id := s1.nextTimerId, kind := TimerKind.retry,
                    delay := RETRY_INTERVAL_MS }],
               retryTimeoutId := some s1.nextTimerId,
               nextScheduleTimeoutId := s1.nextScheduleTimeoutId,
               nextTimerId := s1.nextTimerId + 1 } := by
  obtain ⟨hlt, hnd, hptr⟩ := hInv
  have hnoRetry : ∀ t ∈ s1.armed, t.kind ≠ TimerKind.retry := by
    intro t ht hk
    have : t ∈ retryTimers s1 := by
      rw [retryTimers, List.mem_filter]
      exact ⟨ht, by simp [hk]⟩
    rw [hno] at this
    cases this
  refine ⟨?_, nodup_ids_append_fresh _ _ _ _ hnd hlt, ?_⟩
  · intro t ht
    rcases List.mem_append.1 ht with hmem | hmem
    · exact Nat.lt_succ_of_lt (hlt t hmem)
    · simp only [List.mem_singleton] at hmem
      subst hmem
      exact Nat.lt_succ_self _
  · intro t ht
    rcases List.mem_append.1 ht with hmem | hmem
    · exact ⟨fun hk => absurd hk (hnoRetry t hmem), (hptr t hmem).2⟩
    · simp only [List.mem_singleton] at hmem
      subst hmem
      exact ⟨fun _ => rfl, (fun hk => nomatch hk)⟩

theorem invSched_handleOutcome (s : SchedulerState) (hInv : InvSched s)
    (o : BatchOutcome) (now : SimpleTime) : InvSched (handleOutcome s o now) := by
  cases o with
  | cancelled => exact hInv
  | success =>
    cases h : s.retryTimeoutId with
    | none =>
      simp only [handleOutcome, h]
      exact invSched_scheduleNextDay s hInv now
    | some i =>
      simp only [handleOutcome, h]
      exact invSched_scheduleNextDay _ (invSched_clearRetryNull s hInv i h) now
  | failure =>
    cases h : s.retryTimeoutId with
    | none =>
      simp only [handleOutcome, h, setTimeout]
      exact invSched_armRetry s hInv (retryTimers_eq_nil_of_none s hInv h)
    | some i =>
      simp only [handleOutcome, h, setTimeout]
      exact invSched_armRetry (clearTimeout s i) (invSched_clearTimeout s hInv i)
        (retryTimers_clear_self s hInv i h)

theorem invSched_step (s : SchedulerState) (e : SchedEvent) (hInv : InvSched s) :
    InvSched (schedStep s e) := by
  cases e with
  | outcome o now => exact invSched_handleOutcome s hInv o now
  | retryFires =>
    cases h : s.retryTimeoutId with
    | none => simpa [schedStep, h] using hInv
    | some i =>
      simp only [schedStep, h]
      exact invSched_clearRetryNull s hInv i h
  | dailyFires =>
    cases h : s.nextScheduleTimeoutId with
    | none => simpa [schedStep, h] using hInv
    | some i =>
      simp only [schedStep, h]
      exact invSched_clearDailyNull s hInv i h

theorem invSched_exec (now0 : SimpleTime) (evs : List SchedEvent) :
    InvSched (schedExec now0 evs) := by
  rw [schedExec]
  have main : ∀ s : SchedulerState, InvSched s → InvSched (evs.foldl schedStep s) := by
    induction evs with
    | nil => exact fun s h => h
    | cons e evs ih => exact fun s h => ih _ (invSched_step s e h)
  exact main _ (invSched_init now0)

theorem handleOutcome_failure_shape (s : SchedulerState) (hInv : InvSched s)
    (now : SimpleTime) :
    retryTimers (handleOutcome s BatchOutcome.failure now)
      = [{ id := s.nextTimerId, kind := TimerKind.retry, delay := RETRY_INTERVAL_MS }] ∧
    ∀ t ∈ retryTimers s, t ∉ (handleOutcome s BatchOutcome.failure now).armed := by
  cases h : s.retryTimeoutId with
  | none =>
    have hnil := retryTimers_eq_nil_of_none s hInv h
    constructor
    · simp only [handleOutcome, h, setTimeout, retryTimers, List.filter_append]
      rw [show List.filter _ s.armed = ([] : List ArmedTimer) from hnil]
      simp
    · intro t ht
      rw [hnil] at ht
      cases ht
  | some i =>
    have hclr := retryTimers_clear_self s hInv i h
    constructor
    · simp only [handleOutcome, h, setTimeout, retryTimers, List.filter_append]
      rw [show List.filter _ (clearTimeout s i).armed = ([] : List ArmedTimer) from hclr]
      simp [clearTimeout]
    · intro t ht
      rw [retryTimers, List.mem_filter] at ht
      simp only [decide_eq_true_eq] at ht
      have hti : t.id = i := by
        have := (hInv.2.2 t ht.1).1 ht.2
        rw [h] at this
        injection this with hh
        exact hh.symm
      simp only [handleOutcome, h, setTimeout]
      intro hmem
      rcases List.mem_append.1 hmem with hmem2 | hmem2
      · have hmem3 : t ∈ (clearTimeout s i).armed := hmem2
        exact ((mem_clearTimeout s i t).1 hmem3).2 hti
      · simp only [List.mem_singleton] at hmem2
        have h1 : t.id = (clearTimeout s i).nextTimerId := by rw [hmem2]
        have h2 : (clearTimeout s i).nextTimerId = s.nextTimerId := rfl
        have hlt := hInv.1 t ht.1
        omega

theorem scheduleNextDay_shape (s1 : SchedulerState) (hInv : InvSched s1)
    (hno : retryTimers s1 = []) (now : SimpleTime) :
    retryTimers (scheduleNextDay s1 now) = [] ∧
    dailyTimers (scheduleNextDay s1 now)
      = [{ id := s1.nextTimerId, kind := TimerKind.daily,
           delay := (getNext1AM now).abs - now.abs }] := by
  cases h2 : s1.nextScheduleTimeoutId with
  | none =>
    have hdnil : dailyTimers s1 = [] := by
      rw [dailyTimers, List.filter_eq_nil_iff]
      intro t ht
      simp only [decide_eq_true_eq]
      intro hk
      have := (hInv.2.2 t ht).2 hk
      rw [h2] at this
      cases this
    constructor
    · simp only [scheduleNextDay, h2, setTimeout, retryTimers, List.filter_append]
      rw [show List.filter _ s1.armed = ([] : List ArmedTimer) from hno]
      simp
    · simp only [scheduleNextDay, h2, setTimeout, dailyTimers, List.filter_append]
      rw [show List.filter _ s1.armed = ([] : List ArmedTimer) from hdnil]
      simp
  | some j =>
    have hdnil : dailyTimers (clearTimeout s1 j) = [] := by
      rw [dailyTimers, List.filter_eq_nil_iff]
      intro t ht
      rw [mem_clearTimeout] at ht
      simp only [decide_eq_true_eq]
      intro hk
      have := (hInv.2.2 t ht.1).2 hk
      rw [h2] at this
      injection this with hh
      exact absurd hh.symm ht.2
    have hrnil : retryTimers (clearTimeout s1 j) = [] := by
      rw [retryTimers, List.filter_eq_nil_iff]
      intro t ht
      rw [mem_clearTimeout] at ht
      simp only [decide_eq_true_eq]
      intro hk
      have ht2 : t ∈ retryTimers s1 := by
        rw [retryTimers, List.mem_filter]
        exact ⟨ht.1, by simp [hk]⟩
      rw [hno] at ht2
      cases ht2
    constructor
    · simp only [scheduleNextDay, h2, setTimeout, retryTimers, List.filter_append]
      rw [show List.filter _ (clearTimeout s1 j).armed = ([] : List ArmedTimer) from hrnil]
      simp [clearTimeout]
    · simp only [scheduleNextDay, h2, setTimeout, dailyTimers, List.filter_append]
      rw [show List.filter _ (clearTimeout s1 j).armed = ([] : List ArmedTimer) from hdnil]
      simp [clearTimeout]

theorem handleOutcome_success_shape (s : SchedulerState) (hInv : InvSched s)
    (now : SimpleTime) :
    retryTimers (handleOutcome s BatchOutcome.success now) = [] ∧
    dailyTimers (handleOutcome s BatchOutcome.success now)
      = [{ id := s.nextTimerId, kind := TimerKind.daily,
           delay := (getNext1AM now).abs - now.abs }] := by
  cases h : s.retryTimeoutId with
  | none =>
    simp only [handleOutcome, h]
    exact scheduleNextDay_shape s hInv (retryTimers_eq_nil_of_none s hInv h) now
  | some i =>
    simp only [handleOutcome, h]
    have h1 := invSched_clearRetryNull s hInv i h
    have h2 : retryTimers { clearTimeout s i with retryTimeoutId := none } = [] :=
      retryTimers_clear_self s hInv i h
    exact scheduleNextDay_shape _ h1 h2 now

/-- C2: in every reachable scheduler state, at most one retry timer is armed;
handling a non-cancellation failure cancels any previously armed retry timer
and arms exactly one fresh retry timer at the fixed ten-minute delay; handling
a success leaves no retry timer armed and arms exactly one next-day timer at
the delay to the next 01:00 instant. -/
theorem scheduler_retry_discipline (now0 : SimpleTime) (evs : List SchedEvent)
    (now : SimpleTime) :
    (retryTimers (schedExec now0 evs)).length ≤ 1 ∧
    retryTimers (handleOutcome (schedExec now0 evs) BatchOutcome.failure now)
      = [{ id := (schedExec now0 evs).nextTimerId, kind := TimerKind.retry,
           delay := RETRY_INTERVAL_MS }] ∧
    (∀ t ∈ retryTimers (schedExec now0 evs),
      t ∉ (handleOutcome (schedExec now0 evs) BatchOutcome.failure now).armed) ∧
    retryTimers (handleOutcome (schedExec now0 evs) BatchOutcome.success now) = [] ∧
    dailyTimers (handleOutcome (schedExec now0 evs) BatchOutcome.success now)
      = [{ id := (schedExec now0 evs).nextTimerId, kind := TimerKind.daily,
           delay := (getNext1AM now).abs - now.abs }] := by
  have hInv := invSched_exec now0 evs
  exact ⟨retryTimers_le_one _ hInv, (handleOutcome_failure_shape _ hInv now).1,
    (handleOutcome_failure_shape _ hInv now).2, (handleOutcome_success_shape _ hInv now).1,
    (handleOutcome_success_shape _ hInv now).2⟩

/-- Witness for C2: after one failed run the retry timer with id 1 is armed;
a second failure cancels it and arms the fresh retry timer with id 2 at the
ten-minute delay. -/
theorem scheduler_retry_discipline_witness :
    retryTimers (handleOutcome
        (schedExec { day := 0, msOfDay := 0 }
          [SchedEvent.outcome BatchOutcome.failure { day := 0, msOfDay := 0 }])
        BatchOutcome.failure { day := 1, msOfDay := 0 })
      = [{ id := 2, kind := TimerKind.retry, delay := RETRY_INTERVAL_MS }] ∧
    ({ id := 1, kind := TimerKind.retry, delay := RETRY_INTERVAL_MS } : ArmedTimer)
      ∉ (handleOutcome
          (schedExec { day := 0, msOfDay := 0 }
            [SchedEvent.outcome BatchOutcome.failure { day := 0, msOfDay := 0 }])
          BatchOutcome.failure { day := 1, msOfDay := 0 }).armed := by
  have h := scheduler_retry_discipline { day := 0, msOfDay := 0 }
    [SchedEvent.outcome BatchOutcome.failure { day := 0, msOfDay := 0 }]
    { day := 1, msOfDay := 0 }
  exact ⟨h.2.1, h.2.2.1 _ (by decide)⟩

/-! ### Batch-run system: invariant preservation -/

theorem updateRun_map_rid (rid : Nat) (f : RunState → RunState)
    (hf : ∀ r, (f r).rid = r.rid) (runs : List RunState) :
    (updateRun rid f runs).map RunState.rid = runs.map RunState.rid := by
  unfold updateRun
  rw [List.map_map]
  apply List.map_congr_left
  intro r _
  by_cases h : r.rid = rid <;> simp [Function.comp, h, hf]

theorem mem_updateRun_iff (rid : Nat) (f : RunState → RunState) (runs : List RunState)
    (r' : RunState) :
    r' ∈ updateRun rid f runs ↔ ∃ r ∈ runs, r' = if r.rid = rid then f r else r := by
  unfold updateRun
  constructor
  · intro h
    rcases List.mem_map.1 h with ⟨r, hr, hrr⟩
    exact ⟨r, hr, hrr.symm⟩
  · rintro ⟨r, hr, rfl⟩
    exact List.mem_map_of_mem _ hr

theorem findRun_props (rid : Nat) (runs : List RunState) (r : RunState)
    (h : findRun rid runs = some r) : r ∈ runs ∧ r.rid = rid := by
  unfold findRun at h
  refine ⟨List.mem_of_find?_eq_some h, ?_⟩
  have := List.find?_some h
  simpa using this

theorem nodup_rids_append_fresh (l : List RunState) (r : RunState)
    (hnd : (l.map RunState.rid).Nodup) (hlt : ∀ x ∈ l, x.rid < r.rid) :
    ((l ++ [r]).map RunState.rid).Nodup := by
  rw [List.map_append, List.nodup_append]
  refine ⟨hnd, by simp, ?_⟩
  intro x hx
  rcases List.mem_map.1 hx with ⟨t, ht, rfl⟩
  simp only [List.map_cons, List.map_nil, List.mem_singleton]
  exact Nat.ne_of_lt (hlt t ht)

/-- Master lemma: a step of a single existing run — phase change, an optional
batch of log events all tagged with that run, and a controller update — keeps
the batch-system invariant. -/
theorem invB_run_transition (σ : BatchSys) (hInv : InvB σ) (rid2 : Nat) (r : RunState)
    (hr : r ∈ σ.runs) (hrid : r.rid = rid2) (p : RunPhase) (tail : List RunEvent)
    (c' : Option Nat)
    (htail_rid : ∀ ev ∈ tail, ridOf ev = rid2)
    (hp : p = RunPhase.fetching ∨ p = RunPhase.cancelledDone →
      ((r.phase = RunPhase.fetching ∨ r.phase = RunPhase.cancelledDone) ∧
       (∀ k, RunEvent.articleWritten rid2 k ∉ tail) ∧ RunEvent.indexWritten rid2 ∉ tail))
    (hc : ∀ i, c' = some i → i < σ.nextRid) :
    InvB { runs := updateRun rid2 (fun x => { x with phase := p }) σ.runs,
           controller := c', log := σ.log ++ tail, nextRid := σ.nextRid } := by
  obtain ⟨h1, h2, h3, h4, h5, h6⟩ := hInv
  have himage : ∀ r0 : RunState,
      ((if r0.rid = rid2 then { r0 with phase := p } else r0) : RunState).rid = r0.rid := by
    intro r0
    split <;> rfl
  have hsup : ∀ r0 : RunState,
      ((if r0.rid = rid2 then { r0 with phase := p } else r0) : RunState).superseded
        = r0.superseded := by
    intro r0
    split <;> rfl
  refine ⟨?_, ?_, ?_, ?_, ?_, ?_⟩
  · intro r' hr'
    rcases (mem_updateRun_iff rid2 _ σ.runs r').1 hr' with ⟨r0, hr0, rfl⟩
    rw [himage r0]
    exact h1 r0 hr0
  · dsimp only
    rw [updateRun_map_rid rid2 (fun x => { x with phase := p }) (fun _ => rfl)]
    exact h2
  · intro ev hev
    rcases List.mem_append.1 hev with hmem | hmem
    · exact h3 ev hmem
    · have h7 := h1 r hr
      rw [hrid] at h7
      rw [htail_rid ev hmem]
      exact h7
  · exact hc
  · intro r' hr' hphase
    rcases (mem_updateRun_iff rid2 _ σ.runs r').1 hr' with ⟨r0, hr0, rfl⟩
    by_cases h0 : r0.rid = rid2
    · rw [if_pos h0] at hphase ⊢
      dsimp only at hphase ⊢
      have hr0r : r0 = r := List.inj_on_of_nodup_map h2 hr0 hr (by rw [h0, hrid])
      obtain ⟨hrph, htail1, htail2⟩ := hp hphase
      have hold := h5 r0 hr0 (by rw [hr0r]; exact hrph)
      rw [h0] at hold
      rw [h0]
      constructor
      · intro k hk
        rcases List.mem_append.1 hk with hmem | hmem
        · exact hold.1 k hmem
        · exact htail1 k hmem
      · intro hk
        rcases List.mem_append.1 hk with hmem | hmem
        · exact hold.2 hmem
        · exact htail2 hmem
    · rw [if_neg h0] at hphase ⊢
      dsimp only at hphase ⊢
      have hold := h5 r0 hr0 hphase
      constructor
      · intro k hk
        rcases List.mem_append.1 hk with hmem | hmem
        · exact hold.1 k hmem
        · exact h0 (htail_rid _ hmem)
      · intro hk
        rcases List.mem_append.1 hk with hmem | hmem
        · exact hold.2 hmem
        · exact h0 (htail_rid _ hmem)
  · intro r' hr' a hsupa
    rcases (mem_updateRun_iff rid2 _ σ.runs r').1 hr' with ⟨r0, hr0, rfl⟩
    rw [hsup r0] at hsupa
    obtain ⟨l1, l2, hlog, hnot⟩ := h6 r0 hr0 a hsupa
    refine ⟨l1, l2 ++ tail, ?_, ?_⟩
    · rw [hlog]
      simp [List.append_assoc]
    · rw [himage r0]
      exact hnot

theorem invB_trigger (σ : BatchSys) (hInv : InvB σ) : InvB (triggerStep σ) := by
  obtain ⟨h1, h2, h3, h4, h5, h6⟩ := hInv
  cases hc : σ.controller with
  | none =>
    simp only [triggerStep, hc]
    refine ⟨?_, ?_, ?_, ?_, ?_, ?_⟩
    · intro r' hr'
      rcases List.mem_append.1 hr' with hmem | hmem
      · exact Nat.lt_succ_of_lt (h1 r' hmem)
      · simp only [List.mem_singleton] at hmem
        subst hmem
        exact Nat.lt_succ_self _
    · exact nodup_rids_append_fresh _ _ h2 h1
    · intro ev hev
      rcases List.mem_append.1 hev with hmem | hmem
      · exact Nat.lt_succ_of_lt (h3 ev hmem)
      · simp only [List.mem_singleton] at hmem
        subst hmem
        exact Nat.lt_succ_self _
    · intro i hi
      injection hi with hi2
      subst hi2
      exact Nat.lt_succ_self _
    · intro r' hr' hphase
      rcases List.mem_append.1 hr' with hmem | hmem
      · have hold := h5 r' hmem hphase
        constructor
        · intro k hk
          rcases List.mem_append.1 hk with hmem2 | hmem2
          · exact hold.1 k hmem2
          · simp at hmem2
        · intro hk
          rcases List.mem_append.1 hk with hmem2 | hmem2
          · exact hold.2 hmem2
          · simp at hmem2
      · simp only [List.mem_singleton] at hmem
        subst hmem
        constructor
        · intro k hk
          rcases List.mem_append.1 hk with hmem2 | hmem2
          · exact absurd (h3 _ hmem2) (by simp [ridOf])
          · simp at hmem2
        · intro hk
          rcases List.mem_append.1 hk with hmem2 | hmem2
          · exact absurd (h3 _ hmem2) (by simp [ridOf])
          · simp at hmem2
    · intro r' hr' a hsupa
      rcases List.mem_append.1 hr' with hmem | hmem
      · obtain ⟨l1, l2, hlog, hnot⟩ := h6 r' hmem a hsupa
        refine ⟨l1, l2 ++ [RunEvent.netCalls σ.nextRid], ?_, hnot⟩
        rw [hlog]
        simp [List.append_assoc]
      · simp only [List.mem_singleton] at hmem
        subst hmem
        cases hsupa
  | some a =>
    simp only [triggerStep, hc]
    have himage : ∀ r0 : RunState,
        ((if r0.rid = a then { r0 with aborted := true } else r0) : RunState).rid
          = r0.rid := by
      intro r0
      split <;> rfl
    have hsupimage : ∀ r0 : RunState,
        ((if r0.rid = a then { r0 with aborted := true } else r0) : RunState).superseded
          = r0.superseded := by
      intro r0
      split <;> rfl
    have hphimage : ∀ r0 : RunState,
        ((if r0.rid = a then { r0 with aborted := true } else r0) : RunState).phase
          = r0.phase := by
      intro r0
      split <;> rfl
    refine ⟨?_, ?_, ?_, ?_, ?_, ?_⟩
    · intro r' hr'
      rcases List.mem_append.1 hr' with hmem | hmem
      · rcases (mem_updateRun_iff a _ σ.runs r').1 hmem with ⟨r0, hr0, rfl⟩
        rw [himage r0]
        exact Nat.lt_succ_of_lt (h1 r0 hr0)
      · simp only [List.mem_singleton] at hmem
        subst hmem
        exact Nat.lt_succ_self _
    · apply nodup_rids_append_fresh
      · rw [updateRun_map_rid a (fun x => { x with aborted := true }) (fun _ => rfl)]
        exact h2
      · intro x hx
        rcases (mem_updateRun_iff a _ σ.runs x).1 hx with ⟨r0, hr0, rfl⟩
        rw [himage r0]
        exact h1 r0 hr0
    · intro ev hev
      rcases List.mem_append.1 hev with hmem | hmem
      · exact Nat.lt_succ_of_lt (h3 ev hmem)
      · simp only [List.mem_cons, List.mem_singleton, List.not_mem_nil, or_false] at hmem
        rcases hmem with rfl | rfl
        · exact Nat.lt_succ_of_lt (h4 a hc)
        · exact Nat.lt_succ_self _
    · intro i hi
      injection hi with hi2
      subst hi2
      exact Nat.lt_succ_self _
    · intro r' hr' hphase
      rcases List.mem_append.1 hr' with hmem | hmem
      · rcases (mem_updateRun_iff a _ σ.runs r').1 hmem with ⟨r0, hr0, rfl⟩
        rw [hphimage r0] at hphase
        rw [himage r0]
        have hold := h5 r0 hr0 hphase
        constructor
        · intro k hk
          rcases List.mem_append.1 hk with hmem2 | hmem2
          · exact hold.1 k hmem2
          · simp at hmem2
        · intro hk
          rcases List.mem_append.1 hk with hmem2 | hmem2
          · exact hold.2 hmem2
          · simp at hmem2
      · simp only [List.mem_singleton] at hmem
        subst hmem
        constructor
        · intro k hk
          rcases List.mem_append.1 hk with hmem2 | hmem2
          · exact absurd (h3 _ hmem2) (by simp [ridOf])
          · simp at hmem2
        · intro hk
          rcases List.mem_append.1 hk with hmem2 | hmem2
          · exact absurd (h3 _ hmem2) (by simp [ridOf])
          · simp at hmem2
    · intro r' hr' a' hsupa
      rcases List.mem_append.1 hr' with hmem | hmem
      · rcases (mem_updateRun_iff a _ σ.runs r').1 hmem with ⟨r0, hr0, rfl⟩
        rw [hsupimage r0] at hsupa
        obtain ⟨l1, l2, hlog, hnot⟩ := h6 r0 hr0 a' hsupa
        refine ⟨l1, l2 ++ [RunEvent.abortSignal a, RunEvent.netCalls σ.nextRid], ?_, ?_⟩
        · rw [hlog]
          simp [List.append_assoc]
        · rw [himage r0]
          exact hnot
      · simp only [List.mem_singleton] at hmem
        subst hmem
        injection hsupa with ha'
        subst ha'
        refine ⟨σ.log, [RunEvent.netCalls σ.nextRid], rfl, ?_⟩
        intro hmem2
        exact absurd (h3 _ hmem2) (by simp [ridOf])

theorem invB_step (nsec : Nat) (σ : BatchSys) (hInv : InvB σ) (e : SysEvent) :
    InvB (sysStep nsec σ e) := by
  cases e with
  | trigger => exact invB_trigger σ hInv
  | stepOk rid2 =>
    cases hf : findRun rid2 σ.runs with
    | none => simpa [sysStep, runStepOk, hf] using hInv
    | some r =>
      obtain ⟨hrmem, hrid⟩ := findRun_props rid2 σ.runs r hf
      cases hp : r.phase with
      | fetching =>
        cases hab : r.aborted with
        | true =>
          simp only [sysStep, runStepOk, hf, hp, hab, if_true]
          have := invB_run_transition σ hInv rid2 r hrmem hrid RunPhase.cancelledDone []
            σ.controller (by simp)
            (fun _ => ⟨Or.inl hp, by simp, by simp⟩) hInv.2.2.2.1
          rw [List.append_nil] at this
          exact this
        | false =>
          simp only [sysStep, runStepOk, hf, hp, hab, Bool.false_eq_true, if_false]
          have := invB_run_transition σ hInv rid2 r hrmem hrid (RunPhase.writing 0) []
            σ.controller (by simp) (by rintro (h | h) <;> cases h) hInv.2.2.2.1
          rw [List.append_nil] at this
          exact this
      | writing k =>
        by_cases hk : k < nsec
        · simp only [sysStep, runStepOk, hf, hp, hk, if_true]
          exact invB_run_transition σ hInv rid2 r hrmem hrid (RunPhase.writing (k + 1))
            [RunEvent.articleWritten rid2 k] σ.controller (by simp [ridOf])
            (by rintro (h | h) <;> cases h) hInv.2.2.2.1
        · simp only [sysStep, runStepOk, hf, hp, hk, if_false]
          exact invB_run_transition σ hInv rid2 r hrmem hrid RunPhase.doneOk
            [RunEvent.indexWritten rid2] none (by simp [ridOf])
            (by rintro (h | h) <;> cases h) (by intro i hi; cases hi)
      | doneOk => simpa [sysStep, runStepOk, hf, hp] using hInv
      | cancelledDone => simpa [sysStep, runStepOk, hf, hp] using hInv
      | failedDone => simpa [sysStep, runStepOk, hf, hp] using hInv
  | stepFail rid2 =>
    cases hf : findRun rid2 σ.runs with
    | none => simpa [sysStep, runStepFail, hf] using hInv
    | some r =>
      obtain ⟨hrmem, hrid⟩ := findRun_props rid2 σ.runs r hf
      cases hp : r.phase with
      | fetching =>
        cases hab : r.aborted with
        | true =>
          simp only [sysStep, runStepFail, hf, hp, hab, if_true]
          have := invB_run_transition σ hInv rid2 r hrmem hrid RunPhase.cancelledDone []
            σ.controller (by simp)
            (fun _ => ⟨Or.inl hp, by simp, by simp⟩) hInv.2.2.2.1
          rw [List.append_nil] at this
          exact this
        | false =>
          simp only [sysStep, runStepFail, hf, hp, hab, Bool.false_eq_true, if_false]
          have := invB_run_transition σ hInv rid2 r hrmem hrid RunPhase.failedDone []
            none (by simp) (by rintro (h | h) <;> cases h) (by intro i hi; cases hi)
          rw [List.append_nil] at this
          exact this
      | writing k => simpa [sysStep, runStepFail, hf, hp] using hInv
      | doneOk => simpa [sysStep, runStepFail, hf, hp] using hInv
      | cancelledDone => simpa [sysStep, runStepFail, hf, hp] using hInv
      | failedDone => simpa [sysStep, runStepFail, hf, hp] using hInv

theorem invB_init : InvB initBatchSys := by
  refine ⟨?_, ?_, ?_, ?_, ?_, ?_⟩ <;> simp [initBatchSys, InvB]

theorem invB_exec (nsec : Nat) (evs : List SysEvent) : InvB (runEvents nsec evs) := by
  rw [runEvents]
  have main : ∀ σ : BatchSys, InvB σ → InvB (evs.foldl (sysStep nsec) σ) := by
    induction evs with
    | nil => exact fun σ h => h
    | cons e evs ih => exact fun σ h => ih _ (invB_step nsec σ h e)
  exact main _ invB_init

theorem abortedStuck_run_transition (σ : BatchSys) (rid rid2 : Nat) (p : RunPhase)
    (tail : List RunEvent) (c' : Option Nat) (hstuck : AbortedStuck σ rid)
    (hne : rid2 ≠ rid) (htail_rid : ∀ ev ∈ tail, ridOf ev = rid2) :
    AbortedStuck { runs := updateRun rid2 (fun x => { x with phase := p }) σ.runs,
                   controller := c', log := σ.log ++ tail, nextRid := σ.nextRid } rid := by
  obtain ⟨⟨r, hr, hrid, hab, hph⟩, hw1, hw2⟩ := hstuck
  have hrne : ¬(r.rid = rid2) := by
    rw [hrid]
    exact fun h => hne h.symm
  have hmem : r ∈ updateRun rid2 (fun x => { x with phase := p }) σ.runs := by
    have := (mem_updateRun_iff rid2 (fun x => { x with phase := p }) σ.runs
      (if r.rid = rid2 then { r with phase := p } else r)).2 ⟨r, hr, rfl⟩
    rw [if_neg hrne] at this
    exact this
  refine ⟨⟨r, hmem, hrid, hab, hph⟩, ?_, ?_⟩
  · intro k hk
    rcases List.mem_append.1 hk with hmem2 | hmem2
    · exact hw1 k hmem2
    · exact hne (htail_rid _ hmem2).symm
  · intro hk
    rcases List.mem_append.1 hk with hmem2 | hmem2
    · exact hw2 hmem2
    · exact hne (htail_rid _ hmem2).symm

theorem abortedStuck_step (nsec : Nat) (σ : BatchSys) (hInv : InvB σ) (rid : Nat)
    (hstuck : AbortedStuck σ rid) (e : SysEvent) :
    AbortedStuck (sysStep nsec σ e) rid := by
  obtain ⟨⟨r, hr, hrid, hab, hph⟩, hw1, hw2⟩ := hstuck
  cases e with
  | trigger =>
    cases hc : σ.controller with
    | none =>
      simp only [sysStep, triggerStep, hc]
      refine ⟨⟨r, List.mem_append.2 (Or.inl hr), hrid, hab, hph⟩, ?_, ?_⟩
      · intro k hk
        rcases List.mem_append.1 hk with hmem | hmem
        · exact hw1 k hmem
        · simp at hmem
      · intro hk
        rcases List.mem_append.1 hk with hmem | hmem
        · exact hw2 hmem
        · simp at hmem
    | some a =>
      simp only [sysStep, triggerStep, hc]
      have hmem : (if r.rid = a then { r with aborted := true } else r)
          ∈ updateRun a (fun x => { x with aborted := true }) σ.runs :=
        (mem_updateRun_iff a (fun x => { x with aborted := true }) σ.runs _).2 ⟨r, hr, rfl⟩
      refine ⟨⟨if r.rid = a then { r with aborted := true } else r,
        List.mem_append.2 (Or.inl hmem), ?_, ?_, ?_⟩, ?_, ?_⟩
      · split <;> simp [hrid]
      · split <;> simp [hab]
      · split <;> simpa using hph
      · intro k hk
        rcases List.mem_append.1 hk with hmem2 | hmem2
        · exact hw1 k hmem2
        · simp at hmem2
      · intro hk
        rcases List.mem_append.1 hk with hmem2 | hmem2
        · exact hw2 hmem2
        · simp at hmem2
  | stepOk rid2 =>
    cases hf : findRun rid2 σ.runs with
    | none =>
      simp only [sysStep, runStepOk, hf]
      exact ⟨⟨r, hr, hrid, hab, hph⟩, hw1, hw2⟩
    | some r2 =>
      obtain ⟨hr2mem, hr2rid⟩ := findRun_props rid2 σ.runs r2 hf
      by_cases heq : rid2 = rid
      · have hr2r : r2 = r :=
          List.inj_on_of_nodup_map hInv.2.1 hr2mem hr (by rw [hr2rid, heq, hrid])
        subst hr2r
        rcases hph with hph | hph
        · simp only [sysStep, runStepOk, hf, hph, hab, if_true]
          have hmem : (if r2.rid = rid2 then { r2 with phase := RunPhase.cancelledDone }
              else r2) ∈ updateRun rid2 (fun x => { x with phase := RunPhase.cancelledDone })
                σ.runs :=
            (mem_updateRun_iff rid2 _ σ.runs _).2 ⟨r2, hr2mem, rfl⟩
          rw [if_pos hr2rid] at hmem
          exact ⟨⟨{ r2 with phase := RunPhase.cancelledDone }, hmem, hrid, hab,
            Or.inr rfl⟩, hw1, hw2⟩
        · simp only [sysStep, runStepOk, hf, hph]
          exact ⟨⟨r2, hr2mem, hrid, hab, Or.inr hph⟩, hw1, hw2⟩
      · have hstuck0 : AbortedStuck σ rid := ⟨⟨r, hr, hrid, hab, hph⟩, hw1, hw2⟩
        cases hp2 : r2.phase with
        | fetching =>
          cases hab2 : r2.aborted with
          | true =>
            simp only [sysStep, runStepOk, hf, hp2, hab2, if_true]
            have := abortedStuck_run_transition σ rid rid2 RunPhase.cancelledDone []
              σ.controller hstuck0 heq (by simp)
            rw [List.append_nil] at this
            exact this
          | false =>
            simp only [sysStep, runStepOk, hf, hp2, hab2, Bool.false_eq_true, if_false]
            have := abortedStuck_run_transition σ rid rid2 (RunPhase.writing 0) []
              σ.controller hstuck0 heq (by simp)
            rw [List.append_nil] at this
            exact this
        | writing k =>
          by_cases hk : k < nsec
          · simp only [sysStep, runStepOk, hf, hp2, hk, if_true]
            exact abortedStuck_run_transition σ rid rid2 (RunPhase.writing (k + 1))
              [RunEvent.articleWritten rid2 k] σ.controller hstuck0 heq (by simp [ridOf])
          · simp only [sysStep, runStepOk, hf, hp2, hk, if_false]
            exact abortedStuck_run_transition σ rid rid2 RunPhase.doneOk
              [RunEvent.indexWritten rid2] none hstuck0 heq (by simp [ridOf])
        | doneOk =>
          simp only [sysStep, runStepOk, hf, hp2]
          exact hstuck0
        | cancelledDone =>
          simp only [sysStep, runStepOk, hf, hp2]
          exact hstuck0
        | failedDone =>
          simp only [sysStep, runStepOk, hf, hp2]
          exact hstuck0
  | stepFail rid2 =>
    cases hf : findRun rid2 σ.runs with
    | none =>
      simp only [sysStep, runStepFail, hf]
      exact ⟨⟨r, hr, hrid, hab, hph⟩, hw1, hw2⟩
    | some r2 =>
      obtain ⟨hr2mem, hr2rid⟩ := findRun_props rid2 σ.runs r2 hf
      by_cases heq : rid2 = rid
      · have hr2r : r2 = r :=
          List.inj_on_of_nodup_map hInv.2.1 hr2mem hr (by rw [hr2rid, heq, hrid])
        subst hr2r
        rcases hph with hph | hph
        · simp only [sysStep, runStepFail, hf, hph, hab, if_true]
          have hmem : (if r2.rid = rid2 then { r2 with phase := RunPhase.cancelledDone }
              else r2) ∈ updateRun rid2 (fun x => { x with phase := RunPhase.cancelledDone })
                σ.runs :=
            (mem_updateRun_iff rid2 _ σ.runs _).2 ⟨r2, hr2mem, rfl⟩
          rw [if_pos hr2rid] at hmem
          exact ⟨⟨{ r2 with phase := RunPhase.cancelledDone }, hmem, hrid, hab,
            Or.inr rfl⟩, hw1, hw2⟩
        · simp only [sysStep, runStepFail, hf, hph]
          exact ⟨⟨r2, hr2mem, hrid, hab, Or.inr hph⟩, hw1, hw2⟩
      · have hstuck0 : AbortedStuck σ rid := ⟨⟨r, hr, hrid, hab, hph⟩, hw1, hw2⟩
        cases hp2 : r2.phase with
        | fetching =>
          cases hab2 : r2.aborted with
          | true =>
            simp only [sysStep, runStepFail, hf, hp2, hab2, if_true]
            have := abortedStuck_run_transition σ rid rid2 RunPhase.cancelledDone []
              σ.controller hstuck0 heq (by simp)
            rw [List.append_nil] at this
            exact this
          | false =>
            simp only [sysStep, runStepFail, hf, hp2, hab2, Bool.false_eq_true, if_false]
            have := abortedStuck_run_transition σ rid rid2 RunPhase.failedDone []
              none hstuck0 heq (by simp)
            rw [List.append_nil] at this
            exact this
        | writing k =>
          simp only [sysStep, runStepFail, hf, hp2]
          exact hstuck0
        | doneOk =>
          simp only [sysStep, runStepFail, hf, hp2]
          exact hstuck0
        | cancelledDone =>
          simp only [sysStep, runStepFail, hf, hp2]
          exact hstuck0
        | failedDone =>
          simp only [sysStep, runStepFail, hf, hp2]
          exact hstuck0

theorem abortedStuck_foldl (nsec : Nat) (evs2 : List SysEvent) (σ : BatchSys)
    (hInv : InvB σ) (rid : Nat) (hstuck : AbortedStuck σ rid) :
    AbortedStuck (evs2.foldl (sysStep nsec) σ) rid := by
  induction evs2 generalizing σ with
  | nil => exact hstuck
  | cons e evs2 ih =>
    exact ih (sysStep nsec σ e) (invB_step nsec σ hInv e)
      (abortedStuck_step nsec σ hInv rid hstuck e)

/-- C1 counterexample: the claim as stated is false.  With one section, run 0
completes its fan-in and is then superseded mid-write-loop: its token is
signalled, yet it goes on to write its article file (the write loop never
consults the signal), and at that point run 0 and run 1 are both inside
`generateAllSections` — two batch calls in flight at once. -/
theorem supersede_claim_refuted :
    ¬ supersedeClaim 1 ∧
    activeRunCount (runEvents 1 [SysEvent.trigger, SysEvent.stepOk 0, SysEvent.trigger]) = 2 ∧
    ({ rid := 0, aborted := true, phase := RunPhase.writing 1, superseded := none } : RunState)
      ∈ (runEvents 1
          [SysEvent.trigger, SysEvent.stepOk 0, SysEvent.trigger, SysEvent.stepOk 0]).runs ∧
    RunEvent.articleWritten 0 0
      ∈ (runEvents 1
          [SysEvent.trigger, SysEvent.stepOk 0, SysEvent.trigger, SysEvent.stepOk 0]).log := by
  refine ⟨?_, by decide, by decide, by decide⟩
  intro h
  exact (h.1 [SysEvent.trigger, SysEvent.stepOk 0, SysEvent.trigger, SysEvent.stepOk 0]
    { rid := 0, aborted := true, phase := RunPhase.writing 1, superseded := none }
    (by decide) rfl).1 0 (by decide)

/-- C1 amended: (a) when a trigger fires while the scheduler's active-run
slot holds a run, that run's cancellation token is signalled before the new
run issues its first network call — in every reachable log, the abort signal
of the superseded run precedes every network call of the run that superseded
it; and (b) a run whose token is signalled while its network fan-in is still
pending never writes any article or index file, then or later.  (The original
unconditional never-writes and no-concurrent-batches conjuncts are refuted by
`supersede_claim_refuted`: a run superseded after its fan-in keeps writing,
concurrently with its successor.) -/
theorem supersede_behavior (nsec : Nat) :
    (∀ evs b, b ∈ (runEvents nsec evs).runs → ∀ a, b.superseded = some a →
      ∃ l1 l2, (runEvents nsec evs).log = l1 ++ RunEvent.abortSignal a :: l2 ∧
        RunEvent.netCalls b.rid ∉ l1) ∧
    (∀ evs evs2 r, r ∈ (runEvents nsec evs).runs → r.aborted = true →
      r.phase = RunPhase.fetching →
      neverWrites (runEvents nsec (evs ++ evs2)) r.rid) := by
  constructor
  · intro evs b hb a hsup
    exact (invB_exec nsec evs).2.2.2.2.2 b hb a hsup
  · intro evs evs2 r hr hab hph
    have hInv := invB_exec nsec evs
    have hstuck : AbortedStuck (runEvents nsec evs) r.rid := by
      refine ⟨⟨r, hr, rfl, hab, Or.inl hph⟩, ?_⟩
      exact hInv.2.2.2.2.1 r hr (Or.inl hph)
    have hfold := abortedStuck_foldl nsec evs2 (runEvents nsec evs) hInv r.rid hstuck
    have hexec : runEvents nsec (evs ++ evs2)
        = evs2.foldl (sysStep nsec) (runEvents nsec evs) := by
      rw [runEvents, runEvents, List.foldl_append]
    rw [hexec]
    exact ⟨hfold.2.1, hfold.2.2⟩

/-- Witness for C1 amended, on the trace trigger-then-trigger: the abort
signal of run 0 precedes the network calls of run 1 in the log, and run 0 —
aborted while still fetching — writes nothing even after further steps. -/
theorem supersede_behavior_witness :
    (∃ l1 l2, (runEvents 1 [SysEvent.trigger, SysEvent.trigger]).log
        = l1 ++ RunEvent.abortSignal 0 :: l2 ∧ RunEvent.netCalls 1 ∉ l1) ∧
    neverWrites
      (runEvents 1 ([SysEvent.trigger, SysEvent.trigger] ++ [SysEvent.stepOk 0])) 0 := by
  constructor
  · exact (supersede_behavior 1).1 [SysEvent.trigger, SysEvent.trigger]
      { rid := 1, aborted := false, phase := RunPhase.fetching, superseded := some 0 }
      (by decide) 0 rfl
  · exact (supersede_behavior 1).2 [SysEvent.trigger, SysEvent.trigger] [SysEvent.stepOk 0]
      { rid := 0, aborted := true, phase := RunPhase.fetching, superseded := none }
      (by decide) rfl rfl

end DailyBugle
